import Mathlib

/-!
Verification of the Five Crowns meld-resolution engine.

The definitions below are a shallow embedding of the TypeScript source
(`meldFinder`, `scoring`, and the draw-recommendation decision logic).
JavaScript object identity is modelled by an explicit `id` field on each
card: two physically distinct cards with the same suit and rank carry
different ids, so reference equality becomes full structural equality of
`Card` (including `id`) while the source's suit/rank comparisons become
equality of the `suit` and `rank` projections.  JS `Set`s of indices are
modelled as duplicate-free `List Nat` in insertion order, and `Map`
iteration in insertion order is modelled by first-occurrence lists.
-/

set_option maxHeartbeats 1000000

namespace FiveCrowns

inductive Suit where
  | clubs
  | diamonds
  | hearts
  | spades
  | stars
deriving DecidableEq, Repr

inductive Rank where
  | r3
  | r4
  | r5
  | r6
  | r7
  | r8
  | r9
  | r10
  | rJ
  | rQ
  | rK
  | Joker
deriving DecidableEq, Repr

/-- The source's `Round` type is the union of the eleven non-Joker rank
strings.  We reuse `Rank`; every concrete round used below is non-Joker. -/
abbrev Round := Rank

/-- A card instance.  `suit` and `rank` are the source's `Card` fields; `id`
models JS object identity (each physical card in play is a distinct object). -/
structure Card where
  suit : Suit
  rank : Rank
  id : Nat
deriving DecidableEq, Repr

instance : Inhabited Card := ⟨⟨Suit.clubs, Rank.Joker, 0⟩⟩

inductive MeldType where
  | book
  | run
deriving DecidableEq, Repr

structure Meld where
  cards : List Card
  type : MeldType
deriving DecidableEq, Repr

/-- `isWildCard` from `scoring.ts`: wild iff the rank equals the round's rank
or the rank is Joker. -/
def isWildCard (card : Card) (round : Round) : Bool :=
  card.rank == round || card.rank == Rank.Joker

/-- `calculateCardPoints` from `scoring.ts`. -/
def calculateCardPoints (card : Card) (round : Round) : Nat :=
  if card.rank == Rank.Joker then 50
  else if card.rank == round then 20
  else match card.rank with
    | Rank.rJ => 11
    | Rank.rQ => 12
    | Rank.rK => 13
    | Rank.r3 => 3
    | Rank.r4 => 4
    | Rank.r5 => 5
    | Rank.r6 => 6
    | Rank.r7 => 7
    | Rank.r8 => 8
    | Rank.r9 => 9
    | Rank.r10 => 10
    | Rank.Joker => 50

/-- `RANK_ORDER` from `meldFinder.ts`: the run order 3..K, no wrapping. -/
def RANK_ORDER : List Rank :=
  [Rank.r3, Rank.r4, Rank.r5, Rank.r6, Rank.r7, Rank.r8, Rank.r9, Rank.r10,
   Rank.rJ, Rank.rQ, Rank.rK]

/-- `RANK_ORDER.indexOf`, returning -1 for a rank not in the list (Joker). -/
def rankIndex : Rank → Int
  | Rank.r3 => 0
  | Rank.r4 => 1
  | Rank.r5 => 2
  | Rank.r6 => 3
  | Rank.r7 => 4
  | Rank.r8 => 5
  | Rank.r9 => 6
  | Rank.r10 => 7
  | Rank.rJ => 8
  | Rank.rQ => 9
  | Rank.rK => 10
  | Rank.Joker => -1

/-- JS `Set.add` on an index set kept in insertion order. -/
def setInsert (i : Nat) (s : List Nat) : List Nat :=
  if s.contains i then s else s ++ [i]

/-- Ascending insertion used to model `indices.sort((a, b) => a - b)`. -/
def insertSortedNat (n : Nat) : List Nat → List Nat
  | [] => [n]
  | m :: ms => if n ≤ m then n :: m :: ms else m :: insertSortedNat n ms

/-- `indices.sort((a, b) => a - b)`: ascending numeric sort. -/
def sortNat (l : List Nat) : List Nat :=
  l.foldr insertSortedNat []

/-- Matching used when resolving a book's cards to hand indices
(`cards[i] === card || (cards[i].suit === card.suit && cards[i].rank === card.rank)`).
With ids, `===` is `h == c`. -/
def structMatch (h c : Card) : Bool :=
  h == c || (h.suit == c.suit && h.rank == c.rank)

/-- Matching used when resolving an all-wild book's cards to hand indices. -/
def wildBookMatch (round : Round) (h c : Card) : Bool :=
  h == c ||
    (isWildCard h round && isWildCard c round && h.suit == c.suit && h.rank == c.rank)

/-- Matching used by `getRunKey` when resolving a run's cards to hand indices. -/
def runKeyMatch (round : Round) (h c : Card) : Bool :=
  h == c || (h.suit == c.suit && h.rank == c.rank) ||
    (isWildCard h round && isWildCard c round)

/-- Scan the hand for the first index not yet used whose card matches `c`
(the `for (let i = 0; i < cards.length; i++)` loops in `meldFinder.ts`). -/
def findFirstUnused (hand : List Card) (m : Card → Card → Bool) (used : List Nat)
    (c : Card) : Option Nat :=
  (List.range hand.length).find? (fun i => !used.contains i && m (hand.getD i default) c)

/-- Resolve a list of meld cards to distinct hand indices, first-fit in hand
order, failing if some card has no unused matching index. -/
def firstFitGo (hand : List Card) (m : Card → Card → Bool) :
    List Card → List Nat → Option (List Nat)
  | [], _ => some []
  | c :: cs, used =>
    match findFirstUnused hand m used c with
    | none => none
    | some i =>
      match firstFitGo hand m cs (used ++ [i]) with
      | none => none
      | some rest => some (i :: rest)

def firstFit (hand : List Card) (m : Card → Card → Bool) (cs : List Card) :
    Option (List Nat) :=
  firstFitGo hand m cs []

/-- First-occurrence-order list of the ranks present (models `Map` key
insertion order in `findBooks`). -/
def firstOccurrences (l : List Rank) : List Rank :=
  l.foldl (fun acc r => if acc.contains r then acc else acc ++ [r]) []

/-- Try to emit one book: resolve its cards to hand indices; skip the book if
resolution fails or the sorted index key was already seen. -/
def tryEmitBook (hand : List Card) (m : Card → Card → Bool)
    (st : List Meld × List (List Nat)) (bookCards : List Card) :
    List Meld × List (List Nat) :=
  match firstFit hand m bookCards with
  | none => st
  | some idxs =>
    if st.2.contains (sortNat idxs) then st
    else (st.1 ++ [⟨bookCards, MeldType.book⟩], st.2 ++ [sortNat idxs])

/-- `findBooks` from `meldFinder.ts`. -/
def findBooks (cards : List Card) (round : Round) : List Meld :=
  let wildCards := cards.filter (fun c => isWildCard c round)
  let regularCards := cards.filter (fun c => !isWildCard c round)
  let ranks := firstOccurrences (regularCards.map (·.rank))
  let st1 := ranks.foldl (fun st rk =>
    let groupCards := regularCards.filter (fun c => c.rank == rk)
    if groupCards.length + wildCards.length ≥ 3 then
      (List.range (wildCards.length + 1)).foldl (fun st numWilds =>
        if groupCards.length + numWilds ≥ 3 then
          tryEmitBook cards structMatch st (groupCards ++ wildCards.take numWilds)
        else st) st
    else st) (([], []) : List Meld × List (List Nat))
  let st2 :=
    if wildCards.length ≥ 3 then
      (List.range' 3 (wildCards.length - 2)).foldl (fun st bookSize =>
        tryEmitBook cards (wildBookMatch round) st (wildCards.take bookSize)) st1
    else st1
  st2.1

/-- The book list exactly as the specification describes it: for each rank
group (in first-occurrence order) every wild count with total ≥ 3, then the
all-wild books of every size from 3 to the wild count.  This is the claim-side
definition used to state the refinement of `findBooks`. -/
def booksSpec (cards : List Card) (round : Round) : List Meld :=
  let wilds := cards.filter (fun c => isWildCard c round)
  let regs := cards.filter (fun c => !isWildCard c round)
  let groupBooks := (firstOccurrences (regs.map (·.rank))).flatMap (fun rk =>
    (List.range (wilds.length + 1)).filterMap (fun w =>
      if (regs.filter (fun c => c.rank == rk)).length + w ≥ 3 then
        some ⟨regs.filter (fun c => c.rank == rk) ++ wilds.take w, MeldType.book⟩
      else none))
  let allWild :=
    if wilds.length ≥ 3 then
      (List.range' 3 (wilds.length - 2)).map
        (fun s => (⟨wilds.take s, MeldType.book⟩ : Meld))
    else []
  groupBooks ++ allWild

/-- The (suit, rank) class of a card: both index-resolution matchers used by
`findBooks` identify exactly the cards of one class. -/
def bkey (c : Card) : Suit × Rank :=
  (c.suit, c.rank)

/-- Number of cards of one (suit, rank) class in a list. -/
def bcount (l : List Card) (k : Suit × Rank) : Nat :=
  (l.filter (fun c => bkey c == k)).length

/-- Number of indices in a list that point at cards of one class. -/
def bcountIdx (hand : List Card) (idxs : List Nat) (k : Suit × Rank) : Nat :=
  (idxs.filter (fun i => bkey (hand.getD i default) == k)).length

/-- Card lists of the rank-group books of `booksSpec`, in emission order. -/
def groupCandidates (cards : List Card) (round : Round) : List (List Card) :=
  (firstOccurrences ((cards.filter (fun c => !isWildCard c round)).map (·.rank))).flatMap
    (fun rk =>
      (List.range ((cards.filter (fun c => isWildCard c round)).length + 1)).filterMap
        (fun w =>
          if ((cards.filter (fun c => !isWildCard c round)).filter
              (fun c => c.rank == rk)).length + w ≥ 3 then
            some ((cards.filter (fun c => !isWildCard c round)).filter
              (fun c => c.rank == rk) ++
              (cards.filter (fun c => isWildCard c round)).take w)
          else none))

/-- Card lists of the all-wild books of `booksSpec`, in emission order. -/
def allWildCandidates (cards : List Card) (round : Round) : List (List Card) :=
  if (cards.filter (fun c => isWildCard c round)).length ≥ 3 then
    (List.range' 3 ((cards.filter (fun c => isWildCard c round)).length - 2)).map
      (fun s => (cards.filter (fun c => isWildCard c round)).take s)
  else []

/-- The sorted index key `tryEmitBook` records for a book it emits. -/
def bkeyOf (hand : List Card) (m : Card → Card → Bool) (bs : List Card) :
    List Nat :=
  sortNat ((firstFit hand m bs).getD [])

/-- Sorted-key resolution of a run's cards to hand indices (`getRunKey` in
`findRunsInSuit`); `none` models the empty-string failure key. -/
def getRunKey (cardSource : List Card) (round : Round) (runCards : List Card) :
    Option (List Nat) :=
  match firstFit cardSource (runKeyMatch round) runCards with
  | none => none
  | some idxs => some (sortNat idxs)

/-- Emit a run unless its key fails to resolve or was already seen. -/
def tryEmitRun (cardSource : List Card) (round : Round)
    (st : List Meld × List (List Nat)) (runCards : List Card) :
    List Meld × List (List Nat) :=
  match getRunKey cardSource round runCards with
  | none => st
  | some key =>
    if st.2.contains key then st
    else (st.1 ++ [⟨runCards, MeldType.run⟩], st.2 ++ [key])


/-- Stable ascending insertion by `RANK_ORDER` position, modelling the JS
stable `sort((a, b) => aIndex - bIndex)` on regular cards.  (The source
treats a -1 position as a tie; regular cards always have a position.) -/
def insertByRank (x : Card) : List Card → List Card
  | [] => [x]
  | y :: ys =>
    if rankIndex x.rank ≤ rankIndex y.rank then x :: y :: ys
    else y :: insertByRank x ys

def sortByRank (l : List Card) : List Card :=
  l.foldr insertByRank []

/-- The inner consecutive check of `findRunsInSuit`: every adjacent pair of
ranks sits at positions differing by exactly 1 (and both are in RANK_ORDER). -/
def consecutiveRanks : List Card → Bool
  | [] => true
  | [_] => true
  | a :: b :: rest =>
    !(rankIndex a.rank == -1) && !(rankIndex b.rank == -1) &&
      rankIndex b.rank - rankIndex a.rank == 1 && consecutiveRanks (b :: rest)

/-- All consecutive all-regular subsequences of length ≥ 3 (the first double
loop of `findRunsInSuit`). -/
def consecutivePass (sorted : List Card) (cardSource : List Card) (round : Round)
    (st0 : List Meld × List (List Nat)) : List Meld × List (List Nat) :=
  (List.range sorted.length).foldl (fun st i =>
    (List.range' (i + 2) (sorted.length - (i + 2))).foldl (fun st j =>
      let seq := (sorted.drop i).take (j + 1 - i)
      if consecutiveRanks seq then tryEmitRun cardSource round st seq else st)
      st) st0

/-- Strategy 1 of `findRunsInSuit`: for every pair (i, j) of sorted regular
cards, fill the rank gap between them with wild cards when the counts allow. -/
def gapFillPass (sorted wilds cardSource : List Card) (round : Round)
    (st0 : List Meld × List (List Nat)) : List Meld × List (List Nat) :=
  (List.range sorted.length).foldl (fun st i =>
    (List.range' (i + 1) (sorted.length - (i + 1))).foldl (fun st j =>
      let startCard := sorted.getD i default
      let endCard := sorted.getD j default
      let startIndex := rankIndex startCard.rank
      let endIndex := rankIndex endCard.rank
      if startIndex == -1 || endIndex == -1 then st
      else if endIndex ≤ startIndex then st
      else
        let totalCardsNeeded : Int := endIndex - startIndex + 1
        let cardsWeHave : Int := (j : Int) - (i : Int) + 1
        let wildsNeeded : Int := totalCardsNeeded - cardsWeHave
        if 0 ≤ wildsNeeded ∧ wildsNeeded ≤ (wilds.length : Int) ∧
            3 ≤ totalCardsNeeded then
          let seq := startCard :: ((sorted.drop (i + 1)).take (j - (i + 1)) ++
            (wilds.take wildsNeeded.toNat ++ [endCard]))
          if 3 ≤ seq.length then tryEmitRun cardSource round st seq else st
        else st) st) st0

/-- Strategy 2 of `findRunsInSuit`: extend a consecutive 2-card pair with one
wild, after then before, never past the ends of RANK_ORDER. -/
def pairExtendPass (sorted wilds cardSource : List Card) (round : Round)
    (st0 : List Meld × List (List Nat)) : List Meld × List (List Nat) :=
  (List.range (sorted.length - 1)).foldl (fun st i =>
    let card1 := sorted.getD i default
    let card2 := sorted.getD (i + 1) default
    let index1 := rankIndex card1.rank
    let index2 := rankIndex card2.rank
    if index1 == -1 || index2 == -1 then st
    else if index2 - index1 == 1 ∧ 0 < wilds.length then
      let st :=
        if index2 < (RANK_ORDER.length : Int) - 1 then
          tryEmitRun cardSource round st (card1 :: card2 :: wilds.take 1)
        else st
      if 0 < index1 then
        tryEmitRun cardSource round st (wilds.take 1 ++ [card1, card2])
      else st
    else st) st0

/-- Strategy 3 of `findRunsInSuit`: extend each already-found run with one
wild card not already in that run (object identity), before and after. -/
def runExtendPass (wilds cardSource : List Card) (round : Round)
    (runsSnapshot : List Meld) (seen0 : List (List Nat)) :
    List Meld × List (List Nat) :=
  runsSnapshot.foldl (fun st run =>
    let runRanks := (run.cards.filter (fun c => !isWildCard c round)).map (·.rank)
    match runRanks with
    | [] => st
    | r0 :: rrest =>
      let wildsInRun := run.cards.filter (fun c => isWildCard c round)
      let unusedWilds := wilds.filter (fun wc => !wildsInRun.contains wc)
      if unusedWilds.length ≤ 0 then st
      else
        let firstIndex := rankIndex r0
        let lastIndex := rankIndex ((r0 :: rrest).getLastD r0)
        if firstIndex == -1 || lastIndex == -1 then st
        else
          let st :=
            if 0 < firstIndex then
              tryEmitRun cardSource round st (unusedWilds.take 1 ++ run.cards)
            else st
          if lastIndex < (RANK_ORDER.length : Int) - 1 then
            tryEmitRun cardSource round st (run.cards ++ unusedWilds.take 1)
          else st) ([], seen0)

/-- `findRunsInSuit` from `meldFinder.ts`.  `cards` is the per-suit candidate
pool; `originalCards` is the whole hand (always supplied by `findRuns`). -/
def findRunsInSuit (cards : List Card) (round : Round) (originalCards : List Card) :
    List Meld :=
  let regularCards := cards.filter (fun c => !isWildCard c round)
  let wildCards := cards.filter (fun c => isWildCard c round)
  let sorted := sortByRank regularCards
  let st1 := consecutivePass sorted originalCards round ([], [])
  if 0 < wildCards.length ∧ 0 < sorted.length then
    let st2 := gapFillPass sorted wildCards originalCards round st1
    let st3 := pairExtendPass sorted wildCards originalCards round st2
    let ext := runExtendPass wildCards originalCards round st3.1 st3.2
    st3.1 ++ ext.1
  else st1.1

/-- The per-suit candidate pool of `findRuns`: wild cards go into every
suit's pool, non-wild cards only into their own suit's pool. -/
def suitPool (cards : List Card) (round : Round) (s : Suit) : List Card :=
  cards.filter (fun c => (c.rank == Rank.Joker || isWildCard c round) || c.suit == s)

/-- Suit keys of the `suitGroups` map in insertion order. -/
def suitOrder (cards : List Card) (round : Round) : List Suit :=
  cards.foldl (fun acc c =>
    if c.rank == Rank.Joker || isWildCard c round then
      [Suit.clubs, Suit.diamonds, Suit.hearts, Suit.spades, Suit.stars].foldl
        (fun acc s => if acc.contains s then acc else acc ++ [s]) acc
    else if acc.contains c.suit then acc else acc ++ [c.suit]) []

/-- The outer dedup key of `findRuns`: for every run card, all hand indices
matching it by identity or suit/rank, flattened and sorted. -/
def findRunsDedupKey (cards : List Card) (r : Meld) : List Nat :=
  sortNat ((r.cards.map (fun c =>
    (List.range cards.length).filter (fun i =>
      cards.getD i default == c ||
        ((cards.getD i default).suit == c.suit ∧
         (cards.getD i default).rank == c.rank)))).flatten)

/-- `findRuns` from `meldFinder.ts`. -/
def findRuns (cards : List Card) (round : Round) : List Meld :=
  ((suitOrder cards round).foldl (fun (st : List Meld × List (List Nat)) s =>
    (findRunsInSuit (suitPool cards round s) round cards).foldl (fun st r =>
      let key := findRunsDedupKey cards r
      if st.2.contains key then st else (st.1 ++ [r], st.2 ++ [key])) st)
    ([], [])).1

/-- `findMelds` from `meldFinder.ts`: books then runs; fewer than 3 cards
yields no melds.  (The non-array input guard is enforced by typing.) -/
def findMelds (cards : List Card) (round : Round) : List Meld :=
  if cards.length < 3 then [] else findBooks cards round ++ findRuns cards round

/-- Match one meld card against the still-available hand indices in
`canAllCardsFormMelds`: object identity first, then suit/rank equality or
both-wild. -/
def matchMeldCardCA (hand : List Card) (round : Round) (tempAvail : List Nat)
    (meldCard : Card) : Option Nat :=
  match hand.enum.find? (fun p => p.2 == meldCard && tempAvail.contains p.1) with
  | some p => some p.1
  | none => tempAvail.find? (fun idx =>
      let handCard := hand.getD idx default
      (handCard.suit == meldCard.suit && handCard.rank == meldCard.rank) ||
        (isWildCard handCard round && isWildCard meldCard round))

/-- Match a whole meld's cards in `canAllCardsFormMelds`, consuming indices
as they are matched; fails if any card has no match. -/
def matchMeldCA (hand : List Card) (round : Round) :
    List Card → List Nat → Option (List Nat)
  | [], _ => some []
  | c :: cs, tempAvail =>
    match matchMeldCardCA hand round tempAvail c with
    | none => none
    | some i =>
      match matchMeldCA hand round cs (tempAvail.erase i) with
      | none => none
      | some rest => some (i :: rest)

/-- The meld loop of `canAllCardsFormMelds`: any unmatchable meld makes the
whole check return false; at the end every hand card must be marked used. -/
def canAllGo (hand : List Card) (round : Round) :
    List Meld → List Nat → List Nat → Bool
  | [], _, used => used.length == hand.length
  | meld :: rest, avail, used =>
    match matchMeldCA hand round meld.cards avail with
    | none => false
    | some idxs =>
      canAllGo hand round rest (idxs.foldl (fun a i => a.erase i) avail)
        (idxs.foldl (fun u i => setInsert i u) used)

/-- `canAllCardsFormMelds` from `meldFinder.ts`. -/
def canAllCardsFormMelds (hand : List Card) (melds : List Meld) (round : Round) :
    Bool :=
  if hand.length == 0 then true
  else if melds.length == 0 then false
  else canAllGo hand round melds (List.range hand.length) []

/-- Match one meld card in `findBestMeldCombination`: object identity first,
then suit/rank equality (no wild merging here). -/
def matchMeldCardSel (hand : List Card) (tempAvail : List Nat) (meldCard : Card) :
    Option Nat :=
  match hand.enum.find? (fun p => p.2 == meldCard && tempAvail.contains p.1) with
  | some p => some p.1
  | none => tempAvail.find? (fun idx =>
      let handCard := hand.getD idx default
      handCard.suit == meldCard.suit && handCard.rank == meldCard.rank)

/-- Match a whole meld's cards in `findBestMeldCombination`. -/
def matchMeldSel (hand : List Card) : List Card → List Nat → Option (List Nat)
  | [], _ => some []
  | c :: cs, tempAvail =>
    match matchMeldCardSel hand tempAvail c with
    | none => none
    | some i =>
      match matchMeldSel hand cs (tempAvail.erase i) with
      | none => none
      | some rest => some (i :: rest)

/-- Stable descending insertion by meld size, modelling the JS stable
`sort((a, b) => b.cards.length - a.cards.length)`. -/
def insertMeldDesc (m : Meld) : List Meld → List Meld
  | [] => [m]
  | y :: ys =>
    if y.cards.length ≤ m.cards.length then m :: y :: ys
    else y :: insertMeldDesc m ys

def sortMeldsDesc (l : List Meld) : List Meld :=
  l.foldr insertMeldDesc []

/-- The greedy selection loop of `findBestMeldCombination`: accept a meld if
all its cards match still-available instances (recording the matched index
list), otherwise skip it and continue. -/
def selGo (hand : List Card) :
    List Meld → List (Meld × List Nat) → List Nat →
      List (Meld × List Nat) × List Nat
  | [], sel, avail => (sel, avail)
  | m :: rest, sel, avail =>
    match matchMeldSel hand m.cards avail with
    | none => selGo hand rest sel avail
    | some idxs =>
      selGo hand rest (sel ++ [(m, idxs)]) (idxs.foldl (fun a i => a.erase i) avail)

/-- `findBestMeldCombination` with the matched index lists kept alongside the
accepted melds (the source computes these lists and then discards them). -/
def findBestMeldCombinationFull (hand : List Card) (melds : List Meld) :
    List (Meld × List Nat) × List Nat :=
  if melds.length == 0 then ([], List.range hand.length)
  else selGo hand (sortMeldsDesc melds) [] (List.range hand.length)

structure Selection where
  melds : List Meld
  usedCards : Nat
deriving DecidableEq, Repr

/-- `findBestMeldCombination` from `meldFinder.ts`. -/
def findBestMeldCombination (hand : List Card) (melds : List Meld) : Selection :=
  let full := findBestMeldCombinationFull hand melds
  ⟨full.1.map (·.1), hand.length - full.2.length⟩

structure HelperResult where
  melds : List Meld
  leftoverCards : List Card
  canGoOut : Bool
deriving DecidableEq, Repr

/-- `findBestMeldCombinationForHelper` from `meldFinder.ts`. -/
def findBestMeldCombinationForHelper (hand : List Card) (round : Round) :
    HelperResult :=
  if hand.length == 0 then ⟨[], [], false⟩
  else
    let allMelds := findMelds hand round
    if allMelds.length == 0 then ⟨[], hand, false⟩
    else
      let best := findBestMeldCombination hand allMelds
      let usedIndices := best.melds.foldl (fun used meld =>
        meld.cards.foldl (fun (used : List Nat) meldCard =>
          match (List.range hand.length).find? (fun i =>
            !used.contains i &&
              (hand.getD i default == meldCard ||
                ((hand.getD i default).suit == meldCard.suit &&
                 (hand.getD i default).rank == meldCard.rank))) with
          | none => used
          | some i => used ++ [i]) used) ([] : List Nat)
      let leftoverCards := (hand.enum.filter (fun p => !usedIndices.contains p.1)).map (·.2)
      ⟨best.melds, leftoverCards, leftoverCards.length ≤ 1⟩

/-- The point helper defined inside `suggestDiscard` (same formula as
`calculateCardPoints`, re-stated there). -/
def getCardPoints (card : Card) (round : Round) : Nat :=
  if card.rank == Rank.Joker then 50
  else if isWildCard card round then 20
  else match card.rank with
    | Rank.rJ => 11
    | Rank.rQ => 12
    | Rank.rK => 13
    | Rank.r3 => 3
    | Rank.r4 => 4
    | Rank.r5 => 5
    | Rank.r6 => 6
    | Rank.r7 => 7
    | Rank.r8 => 8
    | Rank.r9 => 9
    | Rank.r10 => 10
    | Rank.Joker => 0

/-- `cards.reduce` picking the highest-point card (first wins ties). -/
def pickHighest (round : Round) (c0 : Card) (rest : List Card) : Card :=
  rest.foldl (fun highest card =>
    if getCardPoints highest round < getCardPoints card round then card
    else highest) c0

/-- `cards.reduce` picking the lowest-point card (first wins ties). -/
def pickLowest (round : Round) (c0 : Card) (rest : List Card) : Card :=
  rest.foldl (fun lowest card =>
    if getCardPoints card round < getCardPoints lowest round then card
    else lowest) c0

/-- Strategy 1 of `suggestDiscard`: the first discard index whose remainder
has ≥ 3 cards and passes the full-hand check. -/
def goOutDiscard (cards : List Card) (round : Round) : Option Card :=
  ((List.range cards.length).find? (fun discardIndex =>
    let remainingHand := cards.eraseIdx discardIndex
    decide (3 ≤ remainingHand.length) &&
      canAllCardsFormMelds remainingHand (findMelds remainingHand round) round)).map
    (fun i => cards.getD i default)

/-- Strategies 2 and 5 of `suggestDiscard` (the source repeats this block
verbatim): final turn → highest-point card overall; otherwise highest-point
non-wild card, or lowest-point card when every card is wild. -/
def pickNoMeldSuggestion (cards : List Card) (round : Round) (isFinalTurn : Bool) :
    Option Card :=
  match cards with
  | [] => none
  | c0 :: rest =>
    if isFinalTurn then some (pickHighest round c0 rest)
    else
      match cards.filter (fun card => !isWildCard card round) with
      | [] => some (pickLowest round c0 rest)
      | n0 :: nrest => some (pickHighest round n0 nrest)

def skeyEq (c : Card) (k : Suit × Rank) : Bool :=
  c.suit == k.1 && c.rank == k.2

/-- Number of hand cards with the given suit/rank (the `handCounts` map). -/
def handCountOf (cards : List Card) (k : Suit × Rank) : Nat :=
  (cards.filter (fun c => skeyEq c k)).length

/-- Number of meld cards with the given suit/rank (the `meldCounts` map). -/
def meldCountOf (melds : List Meld) (k : Suit × Rank) : Nat :=
  (((melds.map (·.cards)).flatten).filter (fun c => skeyEq c k)).length

/-- Strategy 3 of `suggestDiscard`: split the hand's instances into used and
unused by comparing per-(suit, rank) multiplicities. -/
def classifyUnused (cards : List Card) (melds : List Meld) : List Nat × List Card :=
  cards.enum.foldl (fun (st : List Nat × List Card) p =>
    let k := (p.2.suit, p.2.rank)
    let handCount := handCountOf cards k
    let meldCount := meldCountOf melds k
    let markedAsUsed := ((List.range p.1).filter (fun i =>
      st.1.contains i && skeyEq (cards.getD i default) k)).length
    if handCount ≤ meldCount then (setInsert p.1 st.1, st.2)
    else if markedAsUsed < meldCount then (setInsert p.1 st.1, st.2)
    else (st.1, st.2 ++ [p.2])) ([], [])

/-- Strategy 6 of `suggestDiscard`: unused cards whose removal leaves ≥ 3
cards able to form at least one meld.  (The source pushes the card in both
branches of its inner full-hand check, so that check is immaterial.) -/
def validDiscardsOf (cards : List Card) (round : Round) (unusedCards : List Card) :
    List Card :=
  unusedCards.foldl (fun acc unusedCard =>
    match cards.enum.find? (fun p => p.2 == unusedCard) with
    | none => acc
    | some p =>
      let remainingHand := cards.eraseIdx p.1
      if remainingHand.length < 3 then acc
      else if 0 < (findMelds remainingHand round).length then acc ++ [unusedCard]
      else acc) []

/-- `suggestDiscard` from `meldFinder.ts`. -/
def suggestDiscard (cards : List Card) (round : Round) (melds : List Meld)
    (isFinalTurn : Bool) : Option Card :=
  match cards with
  | [] => none
  | c0 :: crest =>
    match goOutDiscard (c0 :: crest) round with
    | some c => some c
    | none =>
      if melds.length == 0 then pickNoMeldSuggestion (c0 :: crest) round isFinalTurn
      else
        let unusedCards := (classifyUnused (c0 :: crest) melds).2
        if unusedCards.length == 0 then some (pickLowest round c0 crest)
        else if unusedCards.length == (c0 :: crest).length then
          pickNoMeldSuggestion (c0 :: crest) round isFinalTurn
        else
          let validDiscards := validDiscardsOf (c0 :: crest) round unusedCards
          let step6 : Option Card :=
            if 0 < validDiscards.length then
              match validDiscards.filter (fun c => !isWildCard c round) with
              | nv0 :: nvr => some (pickHighest round nv0 nvr)
              | [] =>
                match validDiscards.filter (fun c => isWildCard c round) with
                | wv0 :: wvr => some (pickLowest round wv0 wvr)
                | [] => none
            else none
          match step6 with
          | some c => some c
          | none =>
            match unusedCards.filter (fun c => !isWildCard c round) with
            | n0 :: nr => some (pickHighest round n0 nr)
            | [] =>
              match unusedCards.filter (fun c => isWildCard c round) with
              | w0 :: wr => some (pickLowest round w0 wr)
              | [] =>
                match unusedCards with
                | u0 :: _ => some u0
                | [] => some c0

inductive DrawRec where
  | take
  | skip
  | maybe
deriving DecidableEq, Repr

/-- `calculateMeldValue` from `DrawRecommendation.tsx`: each (suit, rank)
key used by some meld is counted once and scored.  (The source rebuilds a
card from the key; points depend only on rank and round.) -/
def calculateMeldValue (melds : List Meld) (round : Round) : Nat :=
  let usedKeys := ((melds.map (·.cards)).flatten).foldl
    (fun (acc : List (Suit × Rank)) c =>
      if acc.contains (c.suit, c.rank) then acc else acc ++ [(c.suit, c.rank)]) []
  (usedKeys.map (fun k => calculateCardPoints ⟨k.1, k.2, 0⟩ round)).sum

/-- The decision logic of `DrawRecommendation`: whether to take the discard
candidate, draw blind, or maybe take it. -/
def recommendDraw (discardCard : Card) (hand : List Card) (round : Round)
    (melds : List Meld) : DrawRec :=
  let handWithDiscard := hand ++ [discardCard]
  let meldsWithDiscard := findMelds handWithDiscard round
  let currentHandValue := (hand.map (calculateCardPoints · round)).sum
  let currentMeldValue := calculateMeldValue melds round
  let newHandValue := (handWithDiscard.map (calculateCardPoints · round)).sum
  let newMeldValue := calculateMeldValue meldsWithDiscard round
  let currentRemaining : Int := (currentHandValue : Int) - (currentMeldValue : Int)
  let newRemaining : Int := (newHandValue : Int) - (newMeldValue : Int)
  let improvement := currentRemaining - newRemaining
  let discardPoints := calculateCardPoints discardCard round
  let discardHelpsMelds :=
    melds.length < meldsWithDiscard.length || currentMeldValue < newMeldValue
  if isWildCard discardCard round then DrawRec.take
  else if discardHelpsMelds && decide (0 < improvement) then DrawRec.take
  else if discardHelpsMelds then
    (if discardPoints ≤ 5 then DrawRec.take else DrawRec.maybe)
  else if discardPoints ≤ 3 then DrawRec.maybe
  else if 10 ≤ discardPoints then DrawRec.skip
  else DrawRec.maybe

/-! ### Basic lemmas -/

lemma foldl_preserve {σ α : Type _} {P : σ → Prop} {f : σ → α → σ} {l : List α}
    {s : σ} (h0 : P s) (hstep : ∀ s a, P s → P (f s a)) : P (l.foldl f s) := by
  induction l generalizing s with
  | nil => exact h0
  | cons a t ih => exact ih (hstep s a h0)

lemma getD_mem {α : Type _} {l : List α} {i : Nat} {d : α} (h : i < l.length) :
    l.getD i d ∈ l := by
  induction l generalizing i with
  | nil => simp at h
  | cons a t ih =>
    cases i with
    | zero => simp
    | succ n =>
      simp only [List.getD_cons_succ]
      exact List.mem_cons_of_mem a (ih (by simpa using h))

/-! ### C10: findMelds is a pure function of its inputs -/

/-- C10: `findMelds` is pure and idempotent: the whole engine is embedded as
pure functions because the source mutates nothing (every sort and filter acts
on a fresh copy of its input), so two calls on the same hand and round return
the same meld list — in particular a permutation of each other — and the hand
value is untouched. -/
theorem C10_findMelds_idempotent :
    ∀ (hand : List Card) (round : Round),
      findMelds hand round = findMelds hand round ∧
      (findMelds hand round).Perm (findMelds hand round) :=
  fun _ _ => ⟨rfl, List.Perm.refl _⟩

/-! ### C9: a wild discard candidate is always recommended for taking -/

/-- C9: for every hand, round, meld list and wild discard candidate (Joker or
round-rank card), the draw advisor recommends taking the discard. -/
theorem C9_wild_candidate_take :
    ∀ (discardCard : Card) (hand : List Card) (round : Round) (melds : List Meld),
      isWildCard discardCard round = true →
      recommendDraw discardCard hand round melds = DrawRec.take := by
  intro discardCard hand round melds h
  simp [recommendDraw, h]

/-- Witness for C9 at a concrete input: a Joker discard candidate is wild in
round 7 and the recommendation is `take`. -/
theorem C9_wild_candidate_take_witness :
    isWildCard ⟨Suit.clubs, Rank.Joker, 9⟩ Rank.r7 = true ∧
      recommendDraw ⟨Suit.clubs, Rank.Joker, 9⟩
        [⟨Suit.diamonds, Rank.r4, 0⟩] Rank.r7 [] = DrawRec.take :=
  ⟨by decide, C9_wild_candidate_take _ _ _ _ (by decide)⟩

/-! ### Structural lemmas about the enumerator's output -/

lemma tryEmitBook_mem {hand : List Card} {mf : Card → Card → Bool}
    {st : List Meld × List (List Nat)} {cs : List Card} {m : Meld}
    (h : m ∈ (tryEmitBook hand mf st cs).1) :
    m ∈ st.1 ∨ m = ⟨cs, MeldType.book⟩ := by
  unfold tryEmitBook at h
  split at h
  · exact Or.inl h
  · split at h
    · exact Or.inl h
    · rcases List.mem_append.mp h with h | h
      · exact Or.inl h
      · exact Or.inr (List.mem_singleton.mp h)

lemma tryEmitRun_mem {src : List Card} {round : Round}
    {st : List Meld × List (List Nat)} {cs : List Card} {m : Meld}
    (h : m ∈ (tryEmitRun src round st cs).1) :
    m ∈ st.1 ∨ m = ⟨cs, MeldType.run⟩ := by
  unfold tryEmitRun at h
  split at h
  · exact Or.inl h
  · split at h
    · exact Or.inl h
    · rcases List.mem_append.mp h with h | h
      · exact Or.inl h
      · exact Or.inr (List.mem_singleton.mp h)

lemma foldl_books_type {β : Type _} {l : List β}
    {f : (List Meld × List (List Nat)) → β → List Meld × List (List Nat)}
    {st : List Meld × List (List Nat)}
    (hstep : ∀ st b, ∀ m ∈ (f st b).1, m ∈ st.1 ∨ m.type = MeldType.book)
    (h0 : ∀ m ∈ st.1, m.type = MeldType.book) :
    ∀ m ∈ (l.foldl f st).1, m.type = MeldType.book :=
  foldl_preserve (P := fun st => ∀ m ∈ st.1, m.type = MeldType.book) h0
    (fun s b hP m hm => (hstep s b m hm).elim (hP m) id)

/-- Every meld emitted by `findBooks` is a book. -/
lemma findBooks_type {cards : List Card} {round : Round} :
    ∀ m ∈ findBooks cards round, m.type = MeldType.book := by
  intro m hm
  simp only [findBooks] at hm
  have base : ∀ {l : List Rank}
      {g : (List Meld × List (List Nat)) → Rank → List Meld × List (List Nat)},
      (∀ st b, ∀ x ∈ (g st b).1, x ∈ st.1 ∨ x.type = MeldType.book) →
      ∀ x ∈ (l.foldl g (([], []) : List Meld × List (List Nat))).1,
        x.type = MeldType.book := by
    intro l g hg
    exact foldl_books_type hg (by simp)
  split at hm
  · refine foldl_books_type (fun st b x hx => (tryEmitBook_mem hx).imp_right ?_) ?_ m hm
    · rintro rfl; rfl
    · refine base (fun st b x hx => ?_)
      split at hx
      · refine foldl_preserve
          (P := fun (s : List Meld × List (List Nat)) =>
            ∀ y ∈ s.1, y ∈ st.1 ∨ y.type = MeldType.book)
          (fun y hy => Or.inl hy) ?_ x hx
        intro s w hP y hy
        split at hy
        · exact (tryEmitBook_mem hy).elim (hP y) (fun he => Or.inr (by rw [he]))
        · exact hP y hy
      · exact Or.inl hx
  · refine base (fun st b x hx => ?_) m hm
    split at hx
    · refine foldl_preserve
        (P := fun (s : List Meld × List (List Nat)) =>
          ∀ y ∈ s.1, y ∈ st.1 ∨ y.type = MeldType.book)
        (fun y hy => Or.inl hy) ?_ x hx
      intro s w hP y hy
      split at hy
      · exact (tryEmitBook_mem hy).elim (hP y) (fun he => Or.inr (by rw [he]))
      · exact hP y hy
    · exact Or.inl hx

/-- Shape of any run emitted within one suit pass: a run meld of ≥ 3 cards
all drawn from the sorted regular cards or the wild cards of the pool. -/
def runShapeOK (sorted wilds : List Card) (m : Meld) : Prop :=
  m.type = MeldType.run ∧ 3 ≤ m.cards.length ∧
    ∀ c ∈ m.cards, c ∈ sorted ∨ c ∈ wilds

lemma consecutivePass_mem {sorted src : List Card} {round : Round}
    {st0 : List Meld × List (List Nat)} {w : List Card} :
    ∀ m ∈ (consecutivePass sorted src round st0).1,
      m ∈ st0.1 ∨ runShapeOK sorted w m := by
  unfold consecutivePass
  refine List.foldlRecOn (motive := fun (st : List Meld × List (List Nat)) =>
    ∀ x ∈ st.1, x ∈ st0.1 ∨ runShapeOK sorted w x) _ _ _
    (fun x hx => Or.inl hx) ?_
  intro st hP i hi
  refine List.foldlRecOn (motive := fun (st : List Meld × List (List Nat)) =>
    ∀ x ∈ st.1, x ∈ st0.1 ∨ runShapeOK sorted w x) _ _ _ hP ?_
  intro st2 hP2 j hj x hx
  have hj' : i + 2 ≤ j ∧ j < i + 2 + (sorted.length - (i + 2)) := by
    simpa using List.mem_range'_1.mp hj
  dsimp only at hx
  split at hx
  · rcases tryEmitRun_mem hx with hx | rfl
    · exact hP2 x hx
    · refine Or.inr ⟨rfl, ?_, ?_⟩
      · simp only [List.length_take, List.length_drop]
        omega
      · intro c hc
        exact Or.inl (List.drop_subset _ _ (List.take_subset _ _ hc))
  · exact hP2 x hx

lemma gapFillPass_mem {sorted wilds src : List Card} {round : Round}
    {st0 : List Meld × List (List Nat)} :
    ∀ m ∈ (gapFillPass sorted wilds src round st0).1,
      m ∈ st0.1 ∨ runShapeOK sorted wilds m := by
  unfold gapFillPass
  refine List.foldlRecOn (motive := fun (st : List Meld × List (List Nat)) =>
    ∀ x ∈ st.1, x ∈ st0.1 ∨ runShapeOK sorted wilds x) _ _ _
    (fun x hx => Or.inl hx) ?_
  intro st hP i hi
  refine List.foldlRecOn (motive := fun (st : List Meld × List (List Nat)) =>
    ∀ x ∈ st.1, x ∈ st0.1 ∨ runShapeOK sorted wilds x) _ _ _ hP ?_
  intro st2 hP2 j hj x hx
  have hi' : i < sorted.length := List.mem_range.mp hi
  have hj' : i + 1 ≤ j ∧ j < i + 1 + (sorted.length - (i + 1)) := by
    simpa using List.mem_range'_1.mp hj
  dsimp only at hx
  split at hx
  · exact hP2 x hx
  · split at hx
    · exact hP2 x hx
    · split at hx
      · split at hx
        · rename_i hlen
          rcases tryEmitRun_mem hx with hx | rfl
          · exact hP2 x hx
          · refine Or.inr ⟨rfl, hlen, ?_⟩
            intro c hc
            simp only [List.mem_cons, List.mem_append, List.not_mem_nil,
              or_false] at hc
            rcases hc with rfl | (hc | (hc | rfl))
            · exact Or.inl (getD_mem hi')
            · exact Or.inl (List.drop_subset _ _ (List.take_subset _ _ hc))
            · exact Or.inr (List.take_subset _ _ hc)
            · exact Or.inl (getD_mem (by omega))
        · exact hP2 x hx
      · exact hP2 x hx

lemma pairExtendPass_mem {sorted wilds src : List Card} {round : Round}
    {st0 : List Meld × List (List Nat)} :
    ∀ m ∈ (pairExtendPass sorted wilds src round st0).1,
      m ∈ st0.1 ∨ runShapeOK sorted wilds m := by
  unfold pairExtendPass
  refine List.foldlRecOn (motive := fun (st : List Meld × List (List Nat)) =>
    ∀ x ∈ st.1, x ∈ st0.1 ∨ runShapeOK sorted wilds x) _ _ _
    (fun x hx => Or.inl hx) ?_
  intro st hP i hi x hx
  have hi' : i < sorted.length - 1 := List.mem_range.mp hi
  have hmem1 : sorted.getD i default ∈ sorted := getD_mem (by omega)
  have hmem2 : sorted.getD (i + 1) default ∈ sorted := getD_mem (by omega)
  dsimp only at hx
  split at hx
  · exact hP x hx
  · split at hx
    · rename_i hcond
      have hwlen : 0 < wilds.length := hcond.2
      have htake : (wilds.take 1).length = 1 := by
        simp only [List.length_take]
        omega
      have hsubA : ∀ c ∈ sorted.getD i default :: sorted.getD (i + 1) default ::
          wilds.take 1, c ∈ sorted ∨ c ∈ wilds := by
        intro c hc
        rcases List.mem_cons.mp hc with rfl | hc
        · exact Or.inl hmem1
        · rcases List.mem_cons.mp hc with rfl | hc
          · exact Or.inl hmem2
          · exact Or.inr (List.take_subset _ _ hc)
      have hsubB : ∀ c ∈ wilds.take 1 ++
          [sorted.getD i default, sorted.getD (i + 1) default],
          c ∈ sorted ∨ c ∈ wilds := by
        intro c hc
        rcases List.mem_append.mp hc with hc | hc
        · exact Or.inr (List.take_subset _ _ hc)
        · rcases List.mem_cons.mp hc with rfl | hc
          · exact Or.inl hmem1
          · rcases List.mem_cons.mp hc with rfl | hc
            · exact Or.inl hmem2
            · simp at hc
      have hlenA : 3 ≤ (sorted.getD i default :: sorted.getD (i + 1) default ::
          wilds.take 1).length := by
        simp [htake]
      have hlenB : 3 ≤ (wilds.take 1 ++
          [sorted.getD i default, sorted.getD (i + 1) default]).length := by
        simp [htake]
      have step1 : ∀ (s : List Meld × List (List Nat)),
          (∀ y ∈ s.1, y ∈ st0.1 ∨ runShapeOK sorted wilds y) →
          ∀ (cs : List Card), 3 ≤ cs.length → (∀ c ∈ cs, c ∈ sorted ∨ c ∈ wilds) →
          ∀ y ∈ (tryEmitRun src round s cs).1,
            y ∈ st0.1 ∨ runShapeOK sorted wilds y := by
        intro s hs cs hlen hsub y hy
        rcases tryEmitRun_mem hy with hy | rfl
        · exact hs y hy
        · exact Or.inr ⟨rfl, hlen, hsub⟩
      by_cases hA : rankIndex (sorted.getD (i + 1) default).rank <
          (RANK_ORDER.length : Int) - 1
      · rw [if_pos hA] at hx
        by_cases hB : (0 : Int) < rankIndex (sorted.getD i default).rank
        · rw [if_pos hB] at hx
          exact step1 _ (step1 _ hP _ hlenA hsubA) _ hlenB hsubB x hx
        · rw [if_neg hB] at hx
          exact step1 _ hP _ hlenA hsubA x hx
      · rw [if_neg hA] at hx
        by_cases hB : (0 : Int) < rankIndex (sorted.getD i default).rank
        · rw [if_pos hB] at hx
          exact step1 _ hP _ hlenB hsubB x hx
        · rw [if_neg hB] at hx
          exact hP x hx
    · exact hP x hx

lemma runExtendPass_mem {wilds src : List Card} {round : Round}
    {snapshot : List Meld} {seen0 : List (List Nat)} {sorted : List Card}
    (hsnap : ∀ r ∈ snapshot, runShapeOK sorted wilds r) :
    ∀ m ∈ (runExtendPass wilds src round snapshot seen0).1,
      runShapeOK sorted wilds m := by
  unfold runExtendPass
  refine List.foldlRecOn (motive := fun (st : List Meld × List (List Nat)) =>
    ∀ x ∈ st.1, runShapeOK sorted wilds x) _ _ _ (by simp) ?_
  intro st hP run hrun x hx
  have hr := hsnap run hrun
  dsimp only at hx
  split at hx
  · exact hP x hx
  · split at hx
    · exact hP x hx
    · split at hx
      · exact hP x hx
      · have hstate : ∀ (s : List Meld × List (List Nat)),
            (∀ y ∈ s.1, runShapeOK sorted wilds y) →
            ∀ (cs : List Card), 3 ≤ cs.length →
            (∀ c ∈ cs, c ∈ sorted ∨ c ∈ wilds) →
            ∀ y ∈ (tryEmitRun src round s cs).1, runShapeOK sorted wilds y := by
          intro s hs cs hlen hsub y hy
          rcases tryEmitRun_mem hy with hy | rfl
          · exact hs y hy
          · exact ⟨rfl, hlen, hsub⟩
        have husub : ∀ c ∈ (wilds.filter (fun wc =>
            !(run.cards.filter (fun c => isWildCard c round)).contains wc)).take 1,
            c ∈ wilds :=
          fun c hc => List.mem_of_mem_filter (List.take_subset _ _ hc)
        have hBsub : ∀ c ∈ (wilds.filter (fun wc =>
            !(run.cards.filter (fun c => isWildCard c round)).contains wc)).take 1 ++
            run.cards, c ∈ sorted ∨ c ∈ wilds := by
          intro c hc
          rcases List.mem_append.mp hc with hc | hc
          · exact Or.inr (husub c hc)
          · exact hr.2.2 c hc
        have hAsub : ∀ c ∈ run.cards ++ (wilds.filter (fun wc =>
            !(run.cards.filter (fun c => isWildCard c round)).contains wc)).take 1,
            c ∈ sorted ∨ c ∈ wilds := by
          intro c hc
          rcases List.mem_append.mp hc with hc | hc
          · exact hr.2.2 c hc
          · exact Or.inr (husub c hc)
        have hBlen : 3 ≤ ((wilds.filter (fun wc =>
            !(run.cards.filter (fun c => isWildCard c round)).contains wc)).take 1 ++
            run.cards).length := by
          have := hr.2.1
          simp only [List.length_append]
          omega
        have hAlen : 3 ≤ (run.cards ++ (wilds.filter (fun wc =>
            !(run.cards.filter (fun c => isWildCard c round)).contains wc)).take 1).length := by
          have := hr.2.1
          simp only [List.length_append]
          omega
        split at hx <;> split at hx <;>
          first
          | exact hP x hx
          | exact hstate _ hP _ hBlen hBsub x hx
          | exact hstate _ hP _ hAlen hAsub x hx
          | exact hstate _ (hstate _ hP _ hBlen hBsub) _ hAlen hAsub x hx

lemma insertByRank_mem {x y : Card} {l : List Card} :
    y ∈ insertByRank x l ↔ y = x ∨ y ∈ l := by
  induction l with
  | nil => simp [insertByRank]
  | cons a t ih =>
    unfold insertByRank
    split
    · simp [List.mem_cons]
    · simp only [List.mem_cons, ih]
      tauto

lemma sortByRank_mem {l : List Card} {y : Card} : y ∈ sortByRank l ↔ y ∈ l := by
  unfold sortByRank
  induction l with
  | nil => simp
  | cons a t ih => simp [List.foldr_cons, insertByRank_mem, ih]

/-- Every run emitted by `findRunsInSuit` is a run meld of at least three
cards all belonging to the suit pool it was built from. -/
lemma findRunsInSuit_ok {pool orig : List Card} {round : Round} :
    ∀ m ∈ findRunsInSuit pool round orig,
      m.type = MeldType.run ∧ 3 ≤ m.cards.length ∧ ∀ c ∈ m.cards, c ∈ pool := by
  intro m hm
  have hconv : ∀ x : Meld,
      runShapeOK (sortByRank (pool.filter (fun c => !isWildCard c round)))
        (pool.filter (fun c => isWildCard c round)) x →
      x.type = MeldType.run ∧ 3 ≤ x.cards.length ∧ ∀ c ∈ x.cards, c ∈ pool := by
    intro x hx
    refine ⟨hx.1, hx.2.1, fun c hc => ?_⟩
    rcases hx.2.2 c hc with h | h
    · exact List.mem_of_mem_filter (sortByRank_mem.mp h)
    · exact List.mem_of_mem_filter h
  unfold findRunsInSuit at hm
  dsimp only at hm
  split at hm
  · rcases List.mem_append.mp hm with hm | hm
    · have h3 := pairExtendPass_mem _ hm
      rcases h3 with hm | hs
      · have h2 := gapFillPass_mem _ hm
        rcases h2 with hm | hs
        · have h1 := consecutivePass_mem
            (w := pool.filter (fun c => isWildCard c round)) _ hm
          rcases h1 with hm | hs
          · simp at hm
          · exact hconv m hs
        · exact hconv m hs
      · exact hconv m hs
    · refine hconv m (runExtendPass_mem ?_ _ hm)
      intro r hr
      have h3 := pairExtendPass_mem _ hr
      rcases h3 with hr | hs
      · have h2 := gapFillPass_mem _ hr
        rcases h2 with hr | hs
        · have h1 := consecutivePass_mem
            (w := pool.filter (fun c => isWildCard c round)) _ hr
          rcases h1 with hr | hs
          · simp at hr
          · exact hs
        · exact hs
      · exact hs
  · have h1 := consecutivePass_mem
      (w := pool.filter (fun c => isWildCard c round)) _ hm
    rcases h1 with hm | hs
    · simp at hm
    · exact hconv m hs

/-- Every meld in `findRuns`' output comes from some suit pool's
`findRunsInSuit`. -/
lemma findRuns_mem {cards : List Card} {round : Round} :
    ∀ m ∈ findRuns cards round,
      ∃ s, m ∈ findRunsInSuit (suitPool cards round s) round cards := by
  unfold findRuns
  refine List.foldlRecOn (motive := fun (st : List Meld × List (List Nat)) =>
    ∀ x ∈ st.1, ∃ s, x ∈ findRunsInSuit (suitPool cards round s) round cards) _ _ _
    (by simp) ?_
  intro st hP s hs
  refine List.foldlRecOn (motive := fun (st : List Meld × List (List Nat)) =>
    ∀ x ∈ st.1, ∃ s, x ∈ findRunsInSuit (suitPool cards round s) round cards) _ _ _
    hP ?_
  intro st2 hP2 r hr x hx
  dsimp only at hx
  split at hx
  · exact hP2 x hx
  · rcases List.mem_append.mp hx with hx | hx
    · exact hP2 x hx
    · rcases List.mem_singleton.mp hx with rfl
      exact ⟨s, hr⟩

/-- A pool with no regular (non-wild) cards yields no runs at all. -/
lemma findRunsInSuit_no_regulars {pool orig : List Card} {round : Round}
    (hreg : pool.filter (fun c => !isWildCard c round) = []) :
    findRunsInSuit pool round orig = [] := by
  unfold findRunsInSuit
  rw [hreg]
  simp [sortByRank, consecutivePass]

/-- An all-wild hand produces no runs at all. -/
lemma findRuns_all_wild {cards : List Card} {round : Round}
    (hw : ∀ c ∈ cards, isWildCard c round = true) :
    findRuns cards round = [] := by
  unfold findRuns
  have hpool : ∀ s, findRunsInSuit (suitPool cards round s) round cards = [] := by
    intro s
    refine findRunsInSuit_no_regulars ?_
    rw [List.filter_eq_nil_iff]
    intro c hc
    have : c ∈ cards := List.mem_of_mem_filter hc
    simp [hw c this]
  have : ∀ (l : List Suit),
      (l.foldl (fun (st : List Meld × List (List Nat)) s =>
        (findRunsInSuit (suitPool cards round s) round cards).foldl (fun st r =>
          if st.2.contains (findRunsDedupKey cards r) then st
          else (st.1 ++ [r], st.2 ++ [findRunsDedupKey cards r])) st)
        (([], []) : List Meld × List (List Nat))) = ([], []) := by
    intro l
    induction l with
    | nil => rfl
    | cons s t ih =>
      simp only [List.foldl_cons, hpool s, List.foldl_nil]
      exact ih
  rw [this]

/-! ### C6: all-wild runs -/

/-- C6 counterexample: a hand of three Jokers (all wild in every round) yields
melds, but none of them is a run — `findRunsInSuit` emits nothing when a suit
pool has no regular card, so the advertised "all-wild run" never exists. -/
theorem C6_counterexample :
    ((findMelds [⟨Suit.clubs, Rank.Joker, 0⟩, ⟨Suit.clubs, Rank.Joker, 1⟩,
        ⟨Suit.clubs, Rank.Joker, 2⟩] Rank.r3).filter
      (fun m => m.type == MeldType.run)) = [] ∧
    (findMelds [⟨Suit.clubs, Rank.Joker, 0⟩, ⟨Suit.clubs, Rank.Joker, 1⟩,
        ⟨Suit.clubs, Rank.Joker, 2⟩] Rank.r3) ≠ [] := by
  constructor
  · decide
  · decide

/-- C6 (amended): for every hand consisting only of wild cards, `findMelds`
emits no meld of type run (all-wild melds appear only as books); in
particular a hand of ≥ 3 wild cards yields no run. -/
theorem C6_amended_no_all_wild_run :
    ∀ (hand : List Card) (round : Round),
      (∀ c ∈ hand, isWildCard c round = true) →
      (findMelds hand round).filter (fun m => m.type == MeldType.run) = [] := by
  intro hand round hw
  unfold findMelds
  split
  · rfl
  · rw [findRuns_all_wild hw, List.append_nil, List.filter_eq_nil_iff]
    intro m hm
    have hb := findBooks_type m hm
    simp [hb]

/-- Witness for C6 (amended) at the three-Joker hand. -/
theorem C6_amended_no_all_wild_run_witness :
    (∀ c ∈ [⟨Suit.clubs, Rank.Joker, 0⟩, ⟨Suit.clubs, Rank.Joker, 1⟩,
        ⟨Suit.clubs, Rank.Joker, 2⟩], isWildCard c Rank.r4 = true) ∧
    ((findMelds [⟨Suit.clubs, Rank.Joker, 0⟩, ⟨Suit.clubs, Rank.Joker, 1⟩,
        ⟨Suit.clubs, Rank.Joker, 2⟩] Rank.r4).filter
      (fun m => m.type == MeldType.run)) = [] :=
  ⟨by decide, C6_amended_no_all_wild_run _ _ (by decide)⟩

/-! ### C2: validity of emitted runs -/

/-- The run-validity predicate exactly as the claim states it: at least three
cards, the non-wild cards all of one suit, sitting at distinct rank positions
inside a consecutive non-wrapping span whose remaining positions are covered
by the wild cards one-for-one. -/
def validRunSpec (m : Meld) (round : Round) : Bool :=
  let nw := m.cards.filter (fun c => !isWildCard c round)
  decide (3 ≤ m.cards.length) &&
    nw.all (fun c => nw.all (fun c2 => c.suit == c2.suit)) &&
    (List.range RANK_ORDER.length).any (fun lo =>
      decide (lo + m.cards.length ≤ RANK_ORDER.length) &&
      decide ((nw.map (fun c => c.rank)).Nodup) &&
      nw.all (fun c =>
        decide ((lo : Int) ≤ rankIndex c.rank) &&
        decide (rankIndex c.rank < (lo : Int) + (m.cards.length : Int))))

/-- C2 counterexample: on the hand [3♥, 5♥, 5♥, Joker] in round 4, the
gap-filling strategy emits [3♥, 5♥, 5♥] as a run — its wild count arithmetic
works out, but the cards are neither consecutive nor of distinct ranks, so
the emitted meld violates the claimed run property. -/
theorem C2_counterexample :
    (⟨[⟨Suit.hearts, Rank.r3, 0⟩, ⟨Suit.hearts, Rank.r5, 1⟩,
        ⟨Suit.hearts, Rank.r5, 2⟩], MeldType.run⟩ : Meld) ∈
      findMelds [⟨Suit.hearts, Rank.r3, 0⟩, ⟨Suit.hearts, Rank.r5, 1⟩,
        ⟨Suit.hearts, Rank.r5, 2⟩, ⟨Suit.clubs, Rank.Joker, 3⟩] Rank.r4 ∧
    validRunSpec (⟨[⟨Suit.hearts, Rank.r3, 0⟩, ⟨Suit.hearts, Rank.r5, 1⟩,
        ⟨Suit.hearts, Rank.r5, 2⟩], MeldType.run⟩ : Meld) Rank.r4 = false := by
  constructor
  · decide
  · decide

/-- C2 (amended): every meld of type run returned by `findMelds` has at least
3 cards and all its non-wild cards share one suit; the claimed
strictly-consecutive distinct-rank property does not hold in general (the
gap-filling strategy checks only card counts between the two endpoints). -/
theorem C2_amended_run_shape :
    ∀ (hand : List Card) (round : Round) (m : Meld),
      m ∈ findMelds hand round → m.type = MeldType.run →
      3 ≤ m.cards.length ∧
        ∃ s : Suit, ∀ c ∈ m.cards, isWildCard c round = false → c.suit = s := by
  intro hand round m hm htype
  unfold findMelds at hm
  split at hm
  · simp at hm
  · rcases List.mem_append.mp hm with hm | hm
    · have := findBooks_type m hm
      rw [htype] at this
      cases this
    · obtain ⟨s, hs⟩ := findRuns_mem m hm
      obtain ⟨-, hlen, hsub⟩ := findRunsInSuit_ok m hs
      refine ⟨hlen, s, fun c hc hnw => ?_⟩
      have hcp := hsub c hc
      unfold suitPool at hcp
      have := List.of_mem_filter hcp
      simp only [Bool.or_eq_true, beq_iff_eq] at this
      rcases this with (hj | hw) | hsuit
      · exfalso
        have : isWildCard c round = true := by
          unfold isWildCard
          simp [hj]
        rw [this] at hnw
        cases hnw
      · rw [hw] at hnw
        cases hnw
      · exact hsuit

/-- Witness for C2 (amended): the hand [3♥, 4♥, 5♥] in round 8 emits the run
[3♥, 4♥, 5♥]; the theorem yields its length bound and common suit. -/
theorem C2_amended_run_shape_witness :
    ((⟨[⟨Suit.hearts, Rank.r3, 0⟩, ⟨Suit.hearts, Rank.r4, 1⟩,
        ⟨Suit.hearts, Rank.r5, 2⟩], MeldType.run⟩ : Meld) ∈
      findMelds [⟨Suit.hearts, Rank.r3, 0⟩, ⟨Suit.hearts, Rank.r4, 1⟩,
        ⟨Suit.hearts, Rank.r5, 2⟩] Rank.r8) ∧
    (3 ≤ ([⟨Suit.hearts, Rank.r3, 0⟩, ⟨Suit.hearts, Rank.r4, 1⟩,
        ⟨Suit.hearts, Rank.r5, 2⟩] : List Card).length ∧
      ∃ s : Suit, ∀ c ∈ ([⟨Suit.hearts, Rank.r3, 0⟩, ⟨Suit.hearts, Rank.r4, 1⟩,
        ⟨Suit.hearts, Rank.r5, 2⟩] : List Card),
        isWildCard c Rank.r8 = false → c.suit = s) :=
  ⟨by decide,
    C2_amended_run_shape
      [⟨Suit.hearts, Rank.r3, 0⟩, ⟨Suit.hearts, Rank.r4, 1⟩,
        ⟨Suit.hearts, Rank.r5, 2⟩] Rank.r8
      ⟨[⟨Suit.hearts, Rank.r3, 0⟩, ⟨Suit.hearts, Rank.r4, 1⟩,
        ⟨Suit.hearts, Rank.r5, 2⟩], MeldType.run⟩ (by decide) rfl⟩

/-! ### C3: unmatchable melds during selection -/

/-- A meld containing a card that matches no hand card at all under the
selector's matching (identity or suit/rank). -/
def hasUnmatchedCardSel (hand : List Card) (m : Meld) : Bool :=
  m.cards.any (fun c => hand.all (fun h =>
    !(h == c) && !(h.suit == c.suit && h.rank == c.rank)))

/-- A meld containing a card that matches no hand card at all under the
full-hand check's matching (identity, suit/rank, or both-wild). -/
def hasUnmatchedCardCA (hand : List Card) (round : Round) (m : Meld) : Bool :=
  m.cards.any (fun c => hand.all (fun h =>
    !(h == c) &&
      !((h.suit == c.suit && h.rank == c.rank) ||
        (isWildCard h round && isWildCard c round))))

lemma enum_getD {l : List Card} {i : Nat} {a : Card} (h : (i, a) ∈ l.enum) :
    i < l.length ∧ l.getD i default = a := by
  have hg : l[i]? = some a := List.mk_mem_enum_iff_getElem?.mp h
  have hlt : i < l.length := by
    by_contra hge
    rw [List.getElem?_eq_none (by omega)] at hg
    cases hg
  refine ⟨hlt, ?_⟩
  rw [List.getD_eq_getElem?_getD, hg]
  rfl

lemma mem_foldl_erase {idxs avail : List Nat} {x : Nat}
    (h : x ∈ idxs.foldl (fun a i => a.erase i) avail) : x ∈ avail := by
  induction idxs generalizing avail with
  | nil => exact h
  | cons i t ih => exact List.mem_of_mem_erase (ih h)

/-- A meld with a card that matches nothing in the hand can never be matched
by the selector, whatever indices are still available. -/
lemma matchMeldSel_none_of_unmatched {hand : List Card} {m : Meld}
    (hbad : hasUnmatchedCardSel hand m = true) :
    ∀ avail, (∀ i ∈ avail, i < hand.length) →
      matchMeldSel hand m.cards avail = none := by
  unfold hasUnmatchedCardSel at hbad
  rw [List.any_eq_true] at hbad
  obtain ⟨c, hc, hall⟩ := hbad
  rw [List.all_eq_true] at hall
  suffices hgen : ∀ (cs : List Card), (∃ c ∈ cs, ∀ h ∈ hand,
      (!(h == c) && !(h.suit == c.suit && h.rank == c.rank)) = true) →
      ∀ avail, (∀ i ∈ avail, i < hand.length) →
      matchMeldSel hand cs avail = none by
    intro avail hav
    exact hgen m.cards ⟨c, hc, hall⟩ avail hav
  intro cs hex avail hav
  induction cs generalizing avail with
  | nil => simp at hex
  | cons c0 rest ih =>
    unfold matchMeldSel
    rcases hex with ⟨c, hc, hcall⟩
    rcases List.mem_cons.mp hc with rfl | hcmem
    · have hcard : matchMeldCardSel hand avail c = none := by
        unfold matchMeldCardSel
        have hdir : hand.enum.find? (fun p => p.2 == c && avail.contains p.1) = none := by
          rw [List.find?_eq_none]
          intro p hp
          have hpm : p.2 ∈ hand := by
            have := enum_getD (l := hand) (i := p.1) (a := p.2) (by simpa using hp)
            rw [← this.2]
            exact getD_mem this.1
          have := hcall p.2 hpm
          simp only [Bool.and_eq_true, Bool.not_eq_true'] at this
          simp [this.1]
        rw [hdir]
        rw [List.find?_eq_none]
        intro i hi
        dsimp only
        have hmem : hand.getD i default ∈ hand := getD_mem (hav i hi)
        have := hcall (hand.getD i default) hmem
        simp only [Bool.and_eq_true, Bool.not_eq_true'] at this
        simp only [this.2]
        exact Bool.false_ne_true
      rw [hcard]
    · cases hcc : matchMeldCardSel hand avail c0 with
      | none => rfl
      | some i =>
        have hrec : matchMeldSel hand rest (avail.erase i) = none :=
          ih ⟨c, hcmem, hcall⟩ _ (fun j hj => hav j (List.mem_of_mem_erase hj))
        dsimp only
        rw [hrec]

/-- Likewise for the full-hand check's matching. -/
lemma matchMeldCA_none_of_unmatched {hand : List Card} {round : Round} {m : Meld}
    (hbad : hasUnmatchedCardCA hand round m = true) :
    ∀ avail, (∀ i ∈ avail, i < hand.length) →
      matchMeldCA hand round m.cards avail = none := by
  unfold hasUnmatchedCardCA at hbad
  rw [List.any_eq_true] at hbad
  obtain ⟨c, hc, hall⟩ := hbad
  rw [List.all_eq_true] at hall
  suffices hgen : ∀ (cs : List Card), (∃ c ∈ cs, ∀ h ∈ hand,
      (!(h == c) && !((h.suit == c.suit && h.rank == c.rank) ||
        (isWildCard h round && isWildCard c round))) = true) →
      ∀ avail, (∀ i ∈ avail, i < hand.length) →
      matchMeldCA hand round cs avail = none by
    intro avail hav
    exact hgen m.cards ⟨c, hc, hall⟩ avail hav
  intro cs hex avail hav
  induction cs generalizing avail with
  | nil => simp at hex
  | cons c0 rest ih =>
    unfold matchMeldCA
    rcases hex with ⟨c, hcm, hcall⟩
    rcases List.mem_cons.mp hcm with rfl | hcmem
    · have hcard : matchMeldCardCA hand round avail c = none := by
        unfold matchMeldCardCA
        have hdir : hand.enum.find? (fun p => p.2 == c && avail.contains p.1) = none := by
          rw [List.find?_eq_none]
          intro p hp
          have hpm : p.2 ∈ hand := by
            have := enum_getD (l := hand) (i := p.1) (a := p.2) (by simpa using hp)
            rw [← this.2]
            exact getD_mem this.1
          have := hcall p.2 hpm
          simp only [Bool.and_eq_true, Bool.not_eq_true'] at this
          simp [this.1]
        rw [hdir]
        rw [List.find?_eq_none]
        intro i hi
        dsimp only
        have hmem : hand.getD i default ∈ hand := getD_mem (hav i hi)
        have := hcall (hand.getD i default) hmem
        simp only [Bool.and_eq_true, Bool.not_eq_true'] at this
        simp only [this.2]
        exact Bool.false_ne_true
      rw [hcard]
    · cases hcc : matchMeldCardCA hand round avail c0 with
      | none => rfl
      | some i =>
        have hrec : matchMeldCA hand round rest (avail.erase i) = none :=
          ih ⟨c, hcmem, hcall⟩ _ (fun j hj => hav j (List.mem_of_mem_erase hj))
        dsimp only
        rw [hrec]

/-- C3 counterexample: with hand [3♣, 3♦, 3♥] at round 4 and melds
[book-of-3s, book-of-5s], the unmatchable book of 5s makes
`canAllCardsFormMelds` return false even though the other meld covers the
whole hand (without it the check returns true), so the unmatchable meld is
turned into an overall failure of the validation call — contradicting the
claim.  `findBestMeldCombination` does skip it, selecting only the book of 3s. -/
theorem C3_counterexample :
    canAllCardsFormMelds
      [⟨Suit.clubs, Rank.r3, 0⟩, ⟨Suit.diamonds, Rank.r3, 1⟩, ⟨Suit.hearts, Rank.r3, 2⟩]
      [⟨[⟨Suit.clubs, Rank.r3, 0⟩, ⟨Suit.diamonds, Rank.r3, 1⟩,
          ⟨Suit.hearts, Rank.r3, 2⟩], MeldType.book⟩,
       ⟨[⟨Suit.clubs, Rank.r5, 10⟩, ⟨Suit.diamonds, Rank.r5, 11⟩,
          ⟨Suit.hearts, Rank.r5, 12⟩], MeldType.book⟩] Rank.r4 = false ∧
    canAllCardsFormMelds
      [⟨Suit.clubs, Rank.r3, 0⟩, ⟨Suit.diamonds, Rank.r3, 1⟩, ⟨Suit.hearts, Rank.r3, 2⟩]
      [⟨[⟨Suit.clubs, Rank.r3, 0⟩, ⟨Suit.diamonds, Rank.r3, 1⟩,
          ⟨Suit.hearts, Rank.r3, 2⟩], MeldType.book⟩] Rank.r4 = true ∧
    (findBestMeldCombination
      [⟨Suit.clubs, Rank.r3, 0⟩, ⟨Suit.diamonds, Rank.r3, 1⟩, ⟨Suit.hearts, Rank.r3, 2⟩]
      [⟨[⟨Suit.clubs, Rank.r3, 0⟩, ⟨Suit.diamonds, Rank.r3, 1⟩,
          ⟨Suit.hearts, Rank.r3, 2⟩], MeldType.book⟩,
       ⟨[⟨Suit.clubs, Rank.r5, 10⟩, ⟨Suit.diamonds, Rank.r5, 11⟩,
          ⟨Suit.hearts, Rank.r5, 12⟩], MeldType.book⟩]).melds =
      [⟨[⟨Suit.clubs, Rank.r3, 0⟩, ⟨Suit.diamonds, Rank.r3, 1⟩,
          ⟨Suit.hearts, Rank.r3, 2⟩], MeldType.book⟩] := by
  refine ⟨by decide, by decide, by decide⟩

/-- C3 (amended): in `findBestMeldCombination` a meld whose cards cannot be
matched to hand instances is silently skipped — it leaves the selection state
unchanged and selection continues with the remaining melds; in
`canAllCardsFormMelds`, however, such a meld causes the entire check to
return false rather than being skipped. -/
theorem C3_amended_unmatchable_meld :
    (∀ (hand : List Card) (pre post : List Meld) (m : Meld)
        (sel : List (Meld × List Nat)) (avail : List Nat),
      (∀ i ∈ avail, i < hand.length) → hasUnmatchedCardSel hand m = true →
      selGo hand (pre ++ m :: post) sel avail = selGo hand (pre ++ post) sel avail) ∧
    (∀ (hand : List Card) (round : Round) (pre post : List Meld) (m : Meld)
        (avail used : List Nat),
      (∀ i ∈ avail, i < hand.length) → hasUnmatchedCardCA hand round m = true →
      canAllGo hand round (pre ++ m :: post) avail used = false) := by
  constructor
  · intro hand pre post m sel avail hav hbad
    induction pre generalizing sel avail with
    | nil =>
      simp only [List.nil_append]
      conv_lhs => rw [selGo]
      rw [matchMeldSel_none_of_unmatched hbad avail hav]
    | cons p pre ih =>
      simp only [List.cons_append]
      unfold selGo
      cases hp : matchMeldSel hand p.cards avail with
      | none => exact ih sel avail hav
      | some idxs =>
        exact ih _ _ (fun i hi => hav i (mem_foldl_erase hi))
  · intro hand round pre post m avail used hav hbad
    induction pre generalizing avail used with
    | nil =>
      simp only [List.nil_append]
      unfold canAllGo
      rw [matchMeldCA_none_of_unmatched hbad avail hav]
    | cons p pre ih =>
      simp only [List.cons_append]
      unfold canAllGo
      cases hp : matchMeldCA hand round p.cards avail with
      | none => rfl
      | some idxs =>
        exact ih _ _ (fun i hi => hav i (mem_foldl_erase hi))

/-- Witness for C3 (amended) at concrete inputs: the book of 5s is
unmatchable against hand [3♣, 3♦, 3♥]; the selector's loop skips it (state
unchanged) while the full-hand check's loop returns false. -/
theorem C3_amended_unmatchable_meld_witness :
    (∀ i ∈ [0, 1, 2], i < ([⟨Suit.clubs, Rank.r3, 0⟩, ⟨Suit.diamonds, Rank.r3, 1⟩,
        ⟨Suit.hearts, Rank.r3, 2⟩] : List Card).length) ∧
    hasUnmatchedCardSel
      [⟨Suit.clubs, Rank.r3, 0⟩, ⟨Suit.diamonds, Rank.r3, 1⟩, ⟨Suit.hearts, Rank.r3, 2⟩]
      ⟨[⟨Suit.clubs, Rank.r5, 10⟩, ⟨Suit.diamonds, Rank.r5, 11⟩,
          ⟨Suit.hearts, Rank.r5, 12⟩], MeldType.book⟩ = true ∧
    selGo [⟨Suit.clubs, Rank.r3, 0⟩, ⟨Suit.diamonds, Rank.r3, 1⟩, ⟨Suit.hearts, Rank.r3, 2⟩]
      ([] ++ ⟨[⟨Suit.clubs, Rank.r5, 10⟩, ⟨Suit.diamonds, Rank.r5, 11⟩,
          ⟨Suit.hearts, Rank.r5, 12⟩], MeldType.book⟩ :: []) [] [0, 1, 2] =
      selGo [⟨Suit.clubs, Rank.r3, 0⟩, ⟨Suit.diamonds, Rank.r3, 1⟩, ⟨Suit.hearts, Rank.r3, 2⟩]
        ([] ++ []) [] [0, 1, 2] ∧
    canAllGo [⟨Suit.clubs, Rank.r3, 0⟩, ⟨Suit.diamonds, Rank.r3, 1⟩, ⟨Suit.hearts, Rank.r3, 2⟩]
      Rank.r4
      ([] ++ ⟨[⟨Suit.clubs, Rank.r5, 10⟩, ⟨Suit.diamonds, Rank.r5, 11⟩,
          ⟨Suit.hearts, Rank.r5, 12⟩], MeldType.book⟩ :: []) [0, 1, 2] [] = false :=
  ⟨by decide, by decide,
    C3_amended_unmatchable_meld.1 _ [] [] _ [] [0, 1, 2] (by decide) (by decide),
    C3_amended_unmatchable_meld.2 _ Rank.r4 [] [] _ [0, 1, 2] [] (by decide) (by decide)⟩

/-! ### C5: the selection coverage invariant -/

lemma matchMeldCardSel_some_mem {hand : List Card} {avail : List Nat} {c : Card}
    {i : Nat} (h : matchMeldCardSel hand avail c = some i) : i ∈ avail := by
  unfold matchMeldCardSel at h
  cases hd : hand.enum.find? (fun p => p.2 == c && avail.contains p.1) with
  | some p =>
    rw [hd] at h
    cases h
    have := List.find?_some hd
    simp only [Bool.and_eq_true] at this
    simpa using this.2
  | none =>
    rw [hd] at h
    exact List.mem_of_find?_eq_some h

lemma matchMeldSel_some_spec {hand : List Card} :
    ∀ {cs : List Card} {avail idxs : List Nat}, avail.Nodup →
      matchMeldSel hand cs avail = some idxs →
      idxs.Nodup ∧ (∀ i ∈ idxs, i ∈ avail) ∧ idxs.length = cs.length := by
  intro cs
  induction cs with
  | nil =>
    intro avail idxs hnd h
    cases h
    exact ⟨List.nodup_nil, by simp, rfl⟩
  | cons c rest ih =>
    intro avail idxs hnd h
    unfold matchMeldSel at h
    cases hc : matchMeldCardSel hand avail c with
    | none => rw [hc] at h; cases h
    | some i =>
      rw [hc] at h
      dsimp only at h
      cases hr : matchMeldSel hand rest (avail.erase i) with
      | none => rw [hr] at h; cases h
      | some restIdxs =>
        rw [hr] at h
        cases h
        have hi : i ∈ avail := matchMeldCardSel_some_mem hc
        obtain ⟨hnd', hsub', hlen'⟩ := ih (hnd.erase i) hr
        refine ⟨?_, ?_, by simp [hlen']⟩
        · refine List.nodup_cons.mpr ⟨?_, hnd'⟩
          intro hmem
          have := hsub' i hmem
          exact (List.Nodup.mem_erase_iff hnd).mp this |>.1 rfl
        · intro j hj
          rcases List.mem_cons.mp hj with rfl | hj
          · exact hi
          · exact List.mem_of_mem_erase (hsub' j hj)

lemma foldl_erase_nodup {idxs avail : List Nat} (h : avail.Nodup) :
    (idxs.foldl (fun a i => a.erase i) avail).Nodup := by
  induction idxs generalizing avail with
  | nil => exact h
  | cons i t ih => exact ih (h.erase i)

lemma mem_foldl_erase_iff {idxs avail : List Nat} {x : Nat} (h : avail.Nodup) :
    x ∈ idxs.foldl (fun a i => a.erase i) avail ↔ x ∈ avail ∧ x ∉ idxs := by
  induction idxs generalizing avail with
  | nil => simp
  | cons i t ih =>
    simp only [List.foldl_cons]
    rw [ih (h.erase i), List.Nodup.mem_erase_iff h]
    simp only [List.mem_cons]
    tauto

lemma foldl_erase_length {idxs avail : List Nat} (hnd : avail.Nodup)
    (hidx : idxs.Nodup) (hsub : ∀ i ∈ idxs, i ∈ avail) :
    (idxs.foldl (fun a i => a.erase i) avail).length + idxs.length = avail.length := by
  induction idxs generalizing avail with
  | nil => simp
  | cons i t ih =>
    simp only [List.foldl_cons, List.length_cons]
    have hi : i ∈ avail := hsub i (List.mem_cons_self i t)
    have hsub' : ∀ j ∈ t, j ∈ avail.erase i := by
      intro j hj
      exact (List.Nodup.mem_erase_iff hnd).mpr
        ⟨fun he => (List.nodup_cons.mp hidx).1 (he ▸ hj), hsub j (List.mem_cons_of_mem i hj)⟩
    have := ih (hnd.erase i) (List.nodup_cons.mp hidx).2 hsub'
    have hlen : (avail.erase i).length = avail.length - 1 := List.length_erase_of_mem hi
    have hpos : 0 < avail.length := List.length_pos_of_mem hi
    omega

/-- The selection loop maintains: index lists match their melds in size, all
indices are in range, no index is assigned twice across chosen melds, and the
covered-plus-available count equals the hand size. -/
lemma selGo_spec {hand : List Card} :
    ∀ (melds : List Meld) (sel : List (Meld × List Nat)) (avail : List Nat),
      avail.Nodup →
      (∀ i ∈ avail, i < hand.length) →
      (∀ p ∈ sel, p.2.length = p.1.cards.length ∧ ∀ i ∈ p.2, i < hand.length) →
      ((sel.map (fun p => p.2)).flatten).Nodup →
      (∀ i ∈ avail, i ∉ (sel.map (fun p => p.2)).flatten) →
      ((sel.map (fun p => p.2)).flatten).length + avail.length = hand.length →
      (∀ p ∈ (selGo hand melds sel avail).1,
          p.2.length = p.1.cards.length ∧ ∀ i ∈ p.2, i < hand.length) ∧
      (((selGo hand melds sel avail).1.map (fun p => p.2)).flatten).Nodup ∧
      (((selGo hand melds sel avail).1.map (fun p => p.2)).flatten).length +
        (selGo hand melds sel avail).2.length = hand.length := by
  intro melds
  induction melds with
  | nil =>
    intro sel avail hnd hav hsel hflat hdisj hsum
    exact ⟨hsel, hflat, hsum⟩
  | cons m rest ih =>
    intro sel avail hnd hav hsel hflat hdisj hsum
    unfold selGo
    cases hm : matchMeldSel hand m.cards avail with
    | none => exact ih sel avail hnd hav hsel hflat hdisj hsum
    | some idxs =>
      obtain ⟨hidxnd, hidxsub, hidxlen⟩ := matchMeldSel_some_spec hnd hm
      have hflat' : ((sel ++ [(m, idxs)]).map (fun p => p.2)).flatten =
          (sel.map (fun p => p.2)).flatten ++ idxs := by
        simp
      refine ih _ _ (foldl_erase_nodup hnd)
        (fun i hi => hav i (mem_foldl_erase hi)) ?_ ?_ ?_ ?_
      · intro p hp
        rcases List.mem_append.mp hp with hp | hp
        · exact hsel p hp
        · rcases List.mem_singleton.mp hp with rfl
          exact ⟨hidxlen, fun i hi => hav i (hidxsub i hi)⟩
      · rw [hflat']
        refine List.Nodup.append hflat hidxnd ?_
        intro a ha ha'
        exact hdisj a (hidxsub a ha') ha
      · intro i hi
        rw [hflat']
        have := (mem_foldl_erase_iff hnd).mp hi
        intro hmem
        rcases List.mem_append.mp hmem with hmem | hmem
        · exact hdisj i this.1 hmem
        · exact this.2 hmem
      · rw [hflat']
        have h1 := foldl_erase_length hnd hidxnd hidxsub
        simp only [List.length_append]
        omega

/-- C5: for every hand and candidate meld list, the Selection result of
`findBestMeldCombination` assigns the chosen melds' cards to distinct hand
instances: every chosen meld carries an index list of its own size whose
indices lie inside the hand, no index is shared between chosen melds, and
`usedCards` equals the number of distinct hand instances covered; moreover
`findBestMeldCombinationForHelper` returns exactly the same chosen melds. -/
theorem C5_selection_coverage :
    ∀ (hand : List Card) (melds : List Meld) (round : Round),
      (findBestMeldCombination hand melds).melds =
        (findBestMeldCombinationFull hand melds).1.map (fun p => p.1) ∧
      (∀ p ∈ (findBestMeldCombinationFull hand melds).1,
        p.2.length = p.1.cards.length ∧ ∀ i ∈ p.2, i < hand.length) ∧
      (((findBestMeldCombinationFull hand melds).1.map (fun p => p.2)).flatten).Nodup ∧
      (findBestMeldCombination hand melds).usedCards =
        (((findBestMeldCombinationFull hand melds).1.map (fun p => p.2)).flatten).length ∧
      (findBestMeldCombinationForHelper hand round).melds =
        (findBestMeldCombination hand (findMelds hand round)).melds := by
  intro hand melds round
  have hmain : (∀ p ∈ (findBestMeldCombinationFull hand melds).1,
      p.2.length = p.1.cards.length ∧ ∀ i ∈ p.2, i < hand.length) ∧
      (((findBestMeldCombinationFull hand melds).1.map (fun p => p.2)).flatten).Nodup ∧
      (((findBestMeldCombinationFull hand melds).1.map (fun p => p.2)).flatten).length +
        (findBestMeldCombinationFull hand melds).2.length = hand.length := by
    unfold findBestMeldCombinationFull
    split
    · simp
    · exact selGo_spec (sortMeldsDesc melds) [] (List.range hand.length)
        (List.nodup_range _) (fun i hi => List.mem_range.mp hi)
        (by simp) (by simp) (by simp) (by simp)
  refine ⟨rfl, hmain.1, hmain.2.1, ?_, ?_⟩
  · show hand.length - (findBestMeldCombinationFull hand melds).2.length = _
    omega
  · unfold findBestMeldCombinationForHelper
    split
    · rename_i hlen
      simp only [beq_iff_eq] at hlen
      show ([] : List Meld) = _
      have hfm : findMelds hand round = [] := by
        unfold findMelds
        rw [if_pos (by omega)]
      rw [hfm]
      rfl
    · dsimp only
      split
      · rename_i hml
        simp only [beq_iff_eq] at hml
        show ([] : List Meld) = _
        rename_i hme
        unfold findBestMeldCombination findBestMeldCombinationFull
        rw [if_pos (by simpa using hml)]
        rfl
      · rfl

/-! ### C1: characterizing the full-hand check -/

/-- The matching class of a card in `canAllCardsFormMelds`: all wild cards
are interchangeable (one class, `none`), non-wild cards match exactly on
suit and rank. -/
def ckey (round : Round) (c : Card) : Option (Suit × Rank) :=
  if isWildCard c round then none else some (c.suit, c.rank)

/-- Number of cards of a list in a given matching class. -/
def classCount (round : Round) (cs : List Card) (k : Option (Suit × Rank)) : Nat :=
  (cs.filter (fun c => decide (ckey round c = k))).length

/-- Number of available hand indices in a given matching class. -/
def availClassCount (hand : List Card) (round : Round) (avail : List Nat)
    (k : Option (Suit × Rank)) : Nat :=
  (avail.filter (fun i => decide (ckey round (hand.getD i default) = k))).length

/-- Total demand of a meld list per matching class. -/
def totalNeed (round : Round) (melds : List Meld) (k : Option (Suit × Rank)) : Nat :=
  (melds.map (fun m => classCount round m.cards k)).sum

lemma wild_rank_congr {h c : Card} {round : Round} (e : h.rank = c.rank) :
    isWildCard h round = isWildCard c round := by
  unfold isWildCard
  rw [e]

/-- The scan condition of `matchMeldCardCA` holds exactly when the two cards
share a matching class. -/
lemma caCond_iff {h c : Card} {round : Round} :
    (((h.suit == c.suit && h.rank == c.rank) ||
      (isWildCard h round && isWildCard c round)) = true) ↔
      ckey round h = ckey round c := by
  constructor
  · intro hl
    rw [Bool.or_eq_true] at hl
    rcases hl with hl | hl
    · rw [Bool.and_eq_true] at hl
      have hs : h.suit = c.suit := by simpa using hl.1
      have hr : h.rank = c.rank := by simpa using hl.2
      unfold ckey
      rw [wild_rank_congr hr]
      by_cases cw : isWildCard c round
      · rw [if_pos cw, if_pos cw]
      · rw [if_neg cw, if_neg cw, hs, hr]
    · rw [Bool.and_eq_true] at hl
      unfold ckey
      rw [if_pos hl.1, if_pos hl.2]
  · intro hr
    unfold ckey at hr
    by_cases hw : isWildCard h round <;> by_cases cw : isWildCard c round
    · simp [hw, cw]
    · rw [if_pos hw, if_neg cw] at hr
      cases hr
    · rw [if_neg hw, if_pos cw] at hr
      cases hr
    · rw [if_neg hw, if_neg cw] at hr
      have hp := Option.some.inj hr
      have hs : h.suit = c.suit := congrArg Prod.fst hp
      have hrk : h.rank = c.rank := congrArg Prod.snd hp
      simp [hs, hrk]

lemma matchMeldCardCA_some {hand : List Card} {round : Round} {avail : List Nat}
    {c : Card} {i : Nat} (h : matchMeldCardCA hand round avail c = some i) :
    i ∈ avail ∧ ckey round (hand.getD i default) = ckey round c := by
  unfold matchMeldCardCA at h
  cases hd : hand.enum.find? (fun p => p.2 == c && avail.contains p.1) with
  | some p =>
    rw [hd] at h
    cases h
    have hp := List.find?_some hd
    simp only [Bool.and_eq_true, beq_iff_eq] at hp
    have hmem := List.mem_of_find?_eq_some hd
    have hg := enum_getD hmem
    refine ⟨by simpa using hp.2, ?_⟩
    rw [hg.2, hp.1]
  | none =>
    rw [hd] at h
    have hp := List.find?_some h
    have hmem := List.mem_of_find?_eq_some h
    refine ⟨hmem, ?_⟩
    exact caCond_iff.mp hp

lemma matchMeldCardCA_none_iff {hand : List Card} {round : Round}
    {avail : List Nat} {c : Card} :
    matchMeldCardCA hand round avail c = none ↔
      ∀ j ∈ avail, ¬(ckey round (hand.getD j default) = ckey round c) := by
  unfold matchMeldCardCA
  constructor
  · intro h j hj hk
    cases hd : hand.enum.find? (fun p => p.2 == c && avail.contains p.1) with
    | some p =>
      rw [hd] at h
      cases h
    | none =>
      rw [hd] at h
      exact List.find?_eq_none.mp h j hj (caCond_iff.mpr hk)
  · intro hall
    have hd : hand.enum.find? (fun p => p.2 == c && avail.contains p.1) = none := by
      rw [List.find?_eq_none]
      intro p hp hcontra
      simp only [Bool.and_eq_true, beq_iff_eq] at hcontra
      have hg := enum_getD hp
      refine hall p.1 (by simpa using hcontra.2) ?_
      rw [hg.2, hcontra.1]
    rw [hd]
    dsimp only
    rw [List.find?_eq_none]
    intro j hj hcontra
    exact hall j hj (caCond_iff.mp hcontra)

lemma matchMeldCA_some_spec {hand : List Card} {round : Round} :
    ∀ {cs : List Card} {avail idxs : List Nat}, avail.Nodup →
      matchMeldCA hand round cs avail = some idxs →
      idxs.Nodup ∧ (∀ i ∈ idxs, i ∈ avail) ∧
      List.Forall₂ (fun i c =>
        ckey round (hand.getD i default) = ckey round c) idxs cs := by
  intro cs
  induction cs with
  | nil =>
    intro avail idxs hnd h
    cases h
    exact ⟨List.nodup_nil, by simp, List.Forall₂.nil⟩
  | cons c rest ih =>
    intro avail idxs hnd h
    unfold matchMeldCA at h
    cases hc : matchMeldCardCA hand round avail c with
    | none => rw [hc] at h; cases h
    | some i =>
      rw [hc] at h
      dsimp only at h
      cases hr : matchMeldCA hand round rest (avail.erase i) with
      | none => rw [hr] at h; cases h
      | some restIdxs =>
        rw [hr] at h
        cases h
        obtain ⟨hi, hkey⟩ := matchMeldCardCA_some hc
        obtain ⟨hnd', hsub', hfa'⟩ := ih (hnd.erase i) hr
        refine ⟨?_, ?_, List.Forall₂.cons hkey hfa'⟩
        · refine List.nodup_cons.mpr ⟨?_, hnd'⟩
          intro hmem
          exact ((List.Nodup.mem_erase_iff hnd).mp (hsub' i hmem)).1 rfl
        · intro j hj
          rcases List.mem_cons.mp hj with rfl | hj
          · exact hi
          · exact List.mem_of_mem_erase (hsub' j hj)

lemma filter_cons_length {p : Nat → Bool} {a : Nat} {l : List Nat} :
    (List.filter p (a :: l)).length =
      (List.filter p l).length + (if p a = true then 1 else 0) := by
  rw [List.filter_cons]
  by_cases h : p a = true
  · rw [if_pos h, if_pos h]
    simp
  · rw [if_neg h, if_neg h]
    simp

lemma if_decide_one {q : Prop} [Decidable q] :
    (if decide q = true then (1 : Nat) else 0) = if q then 1 else 0 := by
  by_cases h : q <;> simp [h]

lemma availClassCount_erase {hand : List Card} {round : Round}
    {avail : List Nat} {i : Nat} {k : Option (Suit × Rank)}
    (hnd : avail.Nodup) (hi : i ∈ avail) :
    availClassCount hand round (avail.erase i) k +
      (if ckey round (hand.getD i default) = k then 1 else 0) =
      availClassCount hand round avail k := by
  unfold availClassCount
  induction avail with
  | nil => cases hi
  | cons a t ih =>
    rcases List.mem_cons.mp hi with rfl | hit
    · rw [List.erase_cons_head, filter_cons_length, if_decide_one]
    · have hne : a ≠ i := fun he => (List.nodup_cons.mp hnd).1 (he ▸ hit)
      have ht := ih (List.nodup_cons.mp hnd).2 hit
      rw [List.erase_cons_tail (by simpa using hne), filter_cons_length,
        filter_cons_length]
      try rw [if_decide_one]
      try rw [if_decide_one]
      omega

lemma forall₂_classCount {hand : List Card} {round : Round}
    {idxs : List Nat} {cs : List Card}
    (h : List.Forall₂ (fun i c =>
      ckey round (hand.getD i default) = ckey round c) idxs cs) :
    ∀ k, (idxs.filter (fun i =>
      decide (ckey round (hand.getD i default) = k))).length =
      classCount round cs k := by
  induction h with
  | nil => intro k; rfl
  | cons hrel hrest ih =>
    intro k
    unfold classCount
    rename_i i c t1 t2
    rw [filter_cons_length, if_decide_one]
    have hc : (List.filter (fun c => decide (ckey round c = k)) (c :: t2)).length =
        (List.filter (fun c => decide (ckey round c = k)) t2).length +
          (if ckey round c = k then 1 else 0) := by
      rw [List.filter_cons]
      by_cases hq : ckey round c = k
      · rw [if_pos (decide_eq_true hq), if_pos hq]
        simp
      · rw [if_neg (by simpa using hq), if_neg hq]
        simp
    rw [hc, hrel]
    have := ih k
    unfold classCount at this
    omega

lemma foldl_erase_classCount {hand : List Card} {round : Round}
    {idxs avail : List Nat} {k : Option (Suit × Rank)}
    (hnd : avail.Nodup) (hidx : idxs.Nodup) (hsub : ∀ i ∈ idxs, i ∈ avail) :
    availClassCount hand round (idxs.foldl (fun a i => a.erase i) avail) k +
      (idxs.filter (fun i =>
        decide (ckey round (hand.getD i default) = k))).length =
      availClassCount hand round avail k := by
  induction idxs generalizing avail with
  | nil => simp
  | cons i t ih =>
    simp only [List.foldl_cons]
    rw [filter_cons_length, if_decide_one]
    have hi : i ∈ avail := hsub i (List.mem_cons_self i t)
    have hsub' : ∀ j ∈ t, j ∈ avail.erase i := by
      intro j hj
      exact (List.Nodup.mem_erase_iff hnd).mpr
        ⟨fun he => (List.nodup_cons.mp hidx).1 (he ▸ hj),
          hsub j (List.mem_cons_of_mem i hj)⟩
    have h2 := ih (hnd.erase i) (List.nodup_cons.mp hidx).2 hsub'
    have h1 : availClassCount hand round (avail.erase i) k +
        (if ckey round (hand.getD i default) = k then 1 else 0) =
        availClassCount hand round avail k := availClassCount_erase hnd hi
    omega

lemma classCount_cons {round : Round} {c : Card} {cs : List Card}
    {k : Option (Suit × Rank)} :
    classCount round (c :: cs) k =
      classCount round cs k + (if ckey round c = k then 1 else 0) := by
  unfold classCount
  rw [List.filter_cons]
  by_cases hq : ckey round c = k
  · rw [if_pos (decide_eq_true hq), if_pos hq]
    simp
  · rw [if_neg (by simpa using hq), if_neg hq]
    simp

/-- A meld's cards can all be matched iff, class by class, its demand does
not exceed the available supply. -/
lemma matchMeldCA_isSome_iff {hand : List Card} {round : Round} :
    ∀ {cs : List Card} {avail : List Nat}, avail.Nodup →
      ((matchMeldCA hand round cs avail).isSome = true ↔
        ∀ k, classCount round cs k ≤ availClassCount hand round avail k) := by
  intro cs
  induction cs with
  | nil =>
    intro avail hnd
    constructor
    · intro _ k
      simp [classCount]
    · intro _
      rfl
  | cons c rest ih =>
    intro avail hnd
    unfold matchMeldCA
    cases hc : matchMeldCardCA hand round avail c with
    | none =>
      simp only [Option.isSome_none]
      constructor
      · intro h
        cases h
      · intro h
        exfalso
        have hall := matchMeldCardCA_none_iff.mp hc
        have hzero : availClassCount hand round avail (ckey round c) = 0 := by
          unfold availClassCount
          rw [List.length_eq_zero]
          rw [List.filter_eq_nil_iff]
          intro j hj
          simpa using hall j hj
        have hone : 1 ≤ classCount round (c :: rest) (ckey round c) := by
          rw [classCount_cons, if_pos rfl]
          omega
        have := h (ckey round c)
        omega
    | some i =>
      dsimp only
      obtain ⟨hi, hkey⟩ := matchMeldCardCA_some hc
      have hiff : (matchMeldCA hand round rest (avail.erase i)).isSome = true ↔
          ∀ k, classCount round rest k ≤
            availClassCount hand round (avail.erase i) k := ih (hnd.erase i)
      have hcnt : ∀ k, availClassCount hand round (avail.erase i) k +
          (if ckey round (hand.getD i default) = k then 1 else 0) =
          availClassCount hand round avail k :=
        fun _ => availClassCount_erase hnd hi
      have hsome : ∀ {r : Option (List Nat)},
          ((match r with
            | none => none
            | some rest => some (i :: rest) : Option (List Nat)).isSome = true ↔
            r.isSome = true) := by
        intro r
        cases r <;> simp
      rw [hsome, hiff]
      constructor
      · intro h k
        have h1 := h k
        have h2 := hcnt k
        rw [classCount_cons]
        by_cases hk : ckey round c = k
        · rw [if_pos hk]
          rw [← hk] at h1 h2 ⊢
          rw [hkey] at h2
          rw [if_pos rfl] at h2
          omega
        · rw [if_neg hk]
          have : ¬(ckey round (hand.getD i default) = k) := by
            rw [hkey]
            exact hk
          rw [if_neg this] at h2
          omega
      · intro h k
        have h1 := h k
        rw [classCount_cons] at h1
        have h2 := hcnt k
        by_cases hk : ckey round c = k
        · rw [if_pos hk] at h1
          rw [← hk] at h2
          rw [hkey] at h2
          rw [if_pos rfl] at h2
          rw [← hk]
          rw [← hk] at h1
          omega
        · rw [if_neg hk] at h1
          have : ¬(ckey round (hand.getD i default) = k) := by
            rw [hkey]
            exact hk
          rw [if_neg this] at h2
          omega

lemma mem_setInsert {x i : Nat} {u : List Nat} :
    x ∈ setInsert i u ↔ x ∈ u ∨ x = i := by
  unfold setInsert
  split
  · rename_i h
    constructor
    · exact Or.inl
    · rintro (hx | rfl)
      · exact hx
      · simpa using h
  · simp [List.mem_append]

lemma mem_foldl_setInsert {idxs used : List Nat} {x : Nat} :
    x ∈ idxs.foldl (fun u i => setInsert i u) used ↔ x ∈ used ∨ x ∈ idxs := by
  induction idxs generalizing used with
  | nil => simp
  | cons i t ih =>
    simp only [List.foldl_cons, ih, mem_setInsert, List.mem_cons]
    tauto

lemma foldl_setInsert_length {idxs used : List Nat} (hnd : idxs.Nodup)
    (hdisj : ∀ i ∈ idxs, i ∉ used) :
    (idxs.foldl (fun u i => setInsert i u) used).length =
      used.length + idxs.length := by
  induction idxs generalizing used with
  | nil => simp
  | cons i t ih =>
    simp only [List.foldl_cons, List.length_cons]
    have h1 : setInsert i used = used ++ [i] := by
      unfold setInsert
      rw [if_neg]
      intro hc
      exact hdisj i (List.mem_cons_self i t) (by simpa using hc)
    rw [h1]
    have h2 := ih (List.nodup_cons.mp hnd).2 (fun j hj hmem => by
      rcases List.mem_append.mp hmem with hmem | hmem
      · exact hdisj j (List.mem_cons_of_mem i hj) hmem
      · rcases List.mem_singleton.mp hmem with rfl
        exact (List.nodup_cons.mp hnd).1 hj)
    rw [h2]
    simp only [List.length_append, List.length_singleton]
    omega

/-- The meld loop of the full-hand check succeeds exactly when every class's
total demand fits the available supply and the used count works out. -/
lemma canAllGo_iff {hand : List Card} {round : Round} :
    ∀ (melds : List Meld) (avail used : List Nat),
      avail.Nodup → (∀ i ∈ avail, i ∉ used) →
      (canAllGo hand round melds avail used = true ↔
        (∀ k, totalNeed round melds k ≤ availClassCount hand round avail k) ∧
        used.length + (melds.map (fun m => m.cards.length)).sum = hand.length) := by
  intro melds
  induction melds with
  | nil =>
    intro avail used hnd hdisj
    unfold canAllGo
    rw [beq_iff_eq]
    constructor
    · intro h
      exact ⟨fun k => by simp [totalNeed], by simpa using h⟩
    · rintro ⟨-, h⟩
      simpa using h
  | cons m rest ih =>
    intro avail used hnd hdisj
    unfold canAllGo
    cases hm : matchMeldCA hand round m.cards avail with
    | none =>
      have hiff : (matchMeldCA hand round m.cards avail).isSome = true ↔
          ∀ k, classCount round m.cards k ≤ availClassCount hand round avail k :=
        matchMeldCA_isSome_iff hnd
      rw [hm] at hiff
      simp only [Option.isSome_none, Bool.false_eq_true, false_iff] at hiff
      constructor
      · intro h
        cases h
      · rintro ⟨h1, -⟩
        exfalso
        refine hiff (fun k => ?_)
        have := h1 k
        have hle : classCount round m.cards k ≤ totalNeed round (m :: rest) k := by
          unfold totalNeed
          simp only [List.map_cons, List.sum_cons]
          omega
        omega
    | some idxs =>
      obtain ⟨hidxnd, hidxsub, hfa⟩ := matchMeldCA_some_spec hnd hm
      have hlen : idxs.length = m.cards.length := hfa.length_eq
      have hneed : ∀ k, classCount round m.cards k ≤
          availClassCount hand round avail k := by
        have hiff : (matchMeldCA hand round m.cards avail).isSome = true ↔
            ∀ k, classCount round m.cards k ≤ availClassCount hand round avail k :=
          matchMeldCA_isSome_iff hnd
        rw [hm] at hiff
        exact hiff.mp rfl
      have hnd' : (idxs.foldl (fun a i => a.erase i) avail).Nodup :=
        foldl_erase_nodup hnd
      have hdisj' : ∀ i ∈ idxs.foldl (fun a i => a.erase i) avail,
          i ∉ idxs.foldl (fun u i => setInsert i u) used := by
        intro i hi hmem
        have hia := (mem_foldl_erase_iff hnd).mp hi
        rcases mem_foldl_setInsert.mp hmem with hmem | hmem
        · exact hdisj i hia.1 hmem
        · exact hia.2 hmem
      have hrec := ih _ _ hnd' hdisj'
      rw [hrec]
      have hcnt : ∀ k,
          availClassCount hand round (idxs.foldl (fun a i => a.erase i) avail) k +
            classCount round m.cards k = availClassCount hand round avail k := by
        intro k
        have h1 : availClassCount hand round
            (idxs.foldl (fun a i => a.erase i) avail) k +
            (idxs.filter (fun i =>
              decide (ckey round (hand.getD i default) = k))).length =
            availClassCount hand round avail k :=
          foldl_erase_classCount hnd hidxnd hidxsub
        rw [forall₂_classCount hfa k] at h1
        exact h1
      have hused : (idxs.foldl (fun u i => setInsert i u) used).length =
          used.length + idxs.length :=
        foldl_setInsert_length hidxnd (fun i hi => hdisj i (hidxsub i hi))
      have htn : ∀ k, totalNeed round (m :: rest) k =
          classCount round m.cards k + totalNeed round rest k := by
        intro k
        unfold totalNeed
        simp
      have hms : ((m :: rest).map (fun m => m.cards.length)).sum =
          m.cards.length + (rest.map (fun m => m.cards.length)).sum := by
        simp
      constructor
      · rintro ⟨h1, h2⟩
        refine ⟨fun k => ?_, ?_⟩
        · have ha := h1 k
          have hb := hcnt k
          rw [htn k]
          omega
        · rw [hms]
          omega
      · rintro ⟨h1, h2⟩
        refine ⟨fun k => ?_, ?_⟩
        · have ha := h1 k
          have hb := hcnt k
          rw [htn k] at ha
          omega
        · rw [hms] at h2
          omega

lemma range_filter_getD {hand : List Card} (p : Card → Bool) :
    ((List.range hand.length).filter (fun i => p (hand.getD i default))).length =
      (hand.filter p).length := by
  induction hand with
  | nil => rfl
  | cons a t ih =>
    have hr : List.range (a :: t).length = 0 :: (List.range t.length).map Nat.succ := by
      simp [List.range_succ_eq_map]
    rw [hr, List.filter_cons]
    have hmap : ((List.range t.length).map Nat.succ).filter
        (fun i => p ((a :: t).getD i default)) =
        ((List.range t.length).filter (fun i => p (t.getD i default))).map Nat.succ := by
      rw [List.filter_map]
      rfl
    by_cases hp : p a = true
    · rw [if_pos (by simpa using hp)]
      rw [List.filter_cons_of_pos (by simpa using hp)]
      simp only [List.length_cons, hmap, List.length_map]
      omega
    · rw [if_neg (by simpa using hp)]
      rw [List.filter_cons_of_neg (by simpa using hp)]
      rw [hmap]
      simp only [List.length_map]
      exact ih

/-- C1 counterexample: for the hand [3♥, 4♥, 5♥, 6♥] at round 8 and the meld
list produced by `findMelds` itself, the Selector covers every card of the
non-empty hand with a non-empty meld list, yet `canAllCardsFormMelds` returns
false — it walks the melds in input order and aborts on the first meld whose
cards are no longer available, so the claimed equivalence fails. -/
theorem C1_counterexample :
    canAllCardsFormMelds
      [⟨Suit.hearts, Rank.r3, 0⟩, ⟨Suit.hearts, Rank.r4, 1⟩,
        ⟨Suit.hearts, Rank.r5, 2⟩, ⟨Suit.hearts, Rank.r6, 3⟩]
      (findMelds [⟨Suit.hearts, Rank.r3, 0⟩, ⟨Suit.hearts, Rank.r4, 1⟩,
        ⟨Suit.hearts, Rank.r5, 2⟩, ⟨Suit.hearts, Rank.r6, 3⟩] Rank.r8)
      Rank.r8 = false ∧
    (findBestMeldCombination
      [⟨Suit.hearts, Rank.r3, 0⟩, ⟨Suit.hearts, Rank.r4, 1⟩,
        ⟨Suit.hearts, Rank.r5, 2⟩, ⟨Suit.hearts, Rank.r6, 3⟩]
      (findMelds [⟨Suit.hearts, Rank.r3, 0⟩, ⟨Suit.hearts, Rank.r4, 1⟩,
        ⟨Suit.hearts, Rank.r5, 2⟩, ⟨Suit.hearts, Rank.r6, 3⟩] Rank.r8)).usedCards =
      ([⟨Suit.hearts, Rank.r3, 0⟩, ⟨Suit.hearts, Rank.r4, 1⟩,
        ⟨Suit.hearts, Rank.r5, 2⟩, ⟨Suit.hearts, Rank.r6, 3⟩] : List Card).length ∧
    ([⟨Suit.hearts, Rank.r3, 0⟩, ⟨Suit.hearts, Rank.r4, 1⟩,
        ⟨Suit.hearts, Rank.r5, 2⟩, ⟨Suit.hearts, Rank.r6, 3⟩] : List Card) ≠ [] ∧
    (findMelds [⟨Suit.hearts, Rank.r3, 0⟩, ⟨Suit.hearts, Rank.r4, 1⟩,
        ⟨Suit.hearts, Rank.r5, 2⟩, ⟨Suit.hearts, Rank.r6, 3⟩] Rank.r8) ≠ [] := by
  refine ⟨by decide, by decide, by decide, by decide⟩

/-- C1 (amended): `canAllCardsFormMelds hand melds round` is true iff the
hand is empty, or the meld list is non-empty, the melds' total demand per
matching class (wild cards forming one class, non-wild cards matched by
exact suit and rank) fits within the hand's supply, and the melds' total
card count equals the hand size — i.e. the melds, all matched disjointly
in input order, cover the hand exactly. -/
theorem C1_amended_canAll_characterization :
    ∀ (hand : List Card) (melds : List Meld) (round : Round),
      canAllCardsFormMelds hand melds round = true ↔
        (hand = [] ∨ (melds ≠ [] ∧
          (∀ k, totalNeed round melds k ≤ classCount round hand k) ∧
          (melds.map (fun m => m.cards.length)).sum = hand.length)) := by
  intro hand melds round
  unfold canAllCardsFormMelds
  split
  · rename_i h
    rw [beq_iff_eq] at h
    have : hand = [] := List.length_eq_zero.mp h
    simp [this]
  · rename_i hlen
    rw [beq_iff_eq] at hlen
    have hne : hand ≠ [] := fun he => hlen (by simp [he])
    split
    · rename_i hml
      rw [beq_iff_eq] at hml
      have : melds = [] := List.length_eq_zero.mp hml
      simp [this, hne]
    · rename_i hml
      rw [beq_iff_eq] at hml
      have hmne : melds ≠ [] := fun he => hml (by simp [he])
      rw [canAllGo_iff melds (List.range hand.length) []
        (List.nodup_range _) (by simp)]
      have hinit : ∀ k, availClassCount hand round (List.range hand.length) k =
          classCount round hand k := by
        intro k
        unfold availClassCount classCount
        exact range_filter_getD (fun c => decide (ckey round c = k))
      constructor
      · rintro ⟨h1, h2⟩
        refine Or.inr ⟨hmne, fun k => ?_, by simpa using h2⟩
        rw [← hinit k]
        exact h1 k
      · rintro (he | ⟨-, h1, h2⟩)
        · exact absurd he hne
        · refine ⟨fun k => ?_, by simpa using h2⟩
          rw [hinit k]
          exact h1 k

/-! ### C7, C8: the discard advisor -/

lemma pickHighest_mem (round : Round) (c0 : Card) (rest : List Card) :
    pickHighest round c0 rest ∈ c0 :: rest := by
  unfold pickHighest
  induction rest generalizing c0 with
  | nil => simp
  | cons x xs ih =>
    simp only [List.foldl_cons]
    by_cases h : getCardPoints c0 round < getCardPoints x round
    · rw [if_pos h]
      exact List.mem_cons_of_mem c0 (ih x)
    · rw [if_neg h]
      rcases List.mem_cons.mp (ih c0) with he | hm
      · rw [he]
        exact List.mem_cons_self c0 (x :: xs)
      · exact List.mem_cons_of_mem c0 (List.mem_cons_of_mem x hm)

lemma pickHighest_max (round : Round) (c0 : Card) (rest : List Card) :
    ∀ d ∈ c0 :: rest,
      getCardPoints d round ≤ getCardPoints (pickHighest round c0 rest) round := by
  unfold pickHighest
  induction rest generalizing c0 with
  | nil =>
    intro d hd
    rcases List.mem_singleton.mp hd with rfl
    simp
  | cons x xs ih =>
    intro d hd
    simp only [List.foldl_cons]
    by_cases h : getCardPoints c0 round < getCardPoints x round
    · rw [if_pos h]
      rcases List.mem_cons.mp hd with rfl | hd
      · exact le_trans h.le (ih x x (List.mem_cons_self x xs))
      · exact ih x d hd
    · rw [if_neg h]
      rcases List.mem_cons.mp hd with rfl | hd
      · exact ih d d (List.mem_cons_self d xs)
      · rcases List.mem_cons.mp hd with rfl | hd
        · exact le_trans (Nat.le_of_not_lt h) (ih c0 c0 (List.mem_cons_self c0 xs))
        · exact ih c0 d (List.mem_cons_of_mem c0 hd)

lemma pickLowest_mem (round : Round) (c0 : Card) (rest : List Card) :
    pickLowest round c0 rest ∈ c0 :: rest := by
  unfold pickLowest
  induction rest generalizing c0 with
  | nil => simp
  | cons x xs ih =>
    simp only [List.foldl_cons]
    by_cases h : getCardPoints x round < getCardPoints c0 round
    · rw [if_pos h]
      exact List.mem_cons_of_mem c0 (ih x)
    · rw [if_neg h]
      rcases List.mem_cons.mp (ih c0) with he | hm
      · rw [he]
        exact List.mem_cons_self c0 (x :: xs)
      · exact List.mem_cons_of_mem c0 (List.mem_cons_of_mem x hm)

lemma pickLowest_min (round : Round) (c0 : Card) (rest : List Card) :
    ∀ d ∈ c0 :: rest,
      getCardPoints (pickLowest round c0 rest) round ≤ getCardPoints d round := by
  unfold pickLowest
  induction rest generalizing c0 with
  | nil =>
    intro d hd
    rcases List.mem_singleton.mp hd with rfl
    simp
  | cons x xs ih =>
    intro d hd
    simp only [List.foldl_cons]
    by_cases h : getCardPoints x round < getCardPoints c0 round
    · rw [if_pos h]
      rcases List.mem_cons.mp hd with rfl | hd
      · exact le_trans (ih x x (List.mem_cons_self x xs)) h.le
      · exact ih x d hd
    · rw [if_neg h]
      rcases List.mem_cons.mp hd with rfl | hd
      · exact ih d d (List.mem_cons_self d xs)
      · rcases List.mem_cons.mp hd with rfl | hd
        · exact le_trans (ih c0 c0 (List.mem_cons_self c0 xs)) (Nat.le_of_not_lt h)
        · exact ih c0 d (List.mem_cons_of_mem c0 hd)

lemma goOutDiscard_mem {cards : List Card} {round : Round} {c : Card}
    (h : goOutDiscard cards round = some c) : c ∈ cards := by
  unfold goOutDiscard at h
  cases hf : (List.range cards.length).find? (fun discardIndex =>
      decide (3 ≤ (cards.eraseIdx discardIndex).length) &&
        canAllCardsFormMelds (cards.eraseIdx discardIndex)
          (findMelds (cards.eraseIdx discardIndex) round) round) with
  | none => rw [hf] at h; cases h
  | some i =>
    rw [hf] at h
    cases h
    exact getD_mem (List.mem_range.mp (List.mem_of_find?_eq_some hf))

lemma pickNoMeldSuggestion_spec (c0 : Card) (crest : List Card) (round : Round)
    (f : Bool) :
    ∃ c, pickNoMeldSuggestion (c0 :: crest) round f = some c ∧ c ∈ c0 :: crest := by
  unfold pickNoMeldSuggestion
  dsimp only
  split
  · exact ⟨_, rfl, pickHighest_mem round c0 crest⟩
  · cases hf : (c0 :: crest).filter (fun card => !isWildCard card round) with
    | nil => exact ⟨_, rfl, pickLowest_mem round c0 crest⟩
    | cons n0 nrest =>
      refine ⟨_, rfl, ?_⟩
      have hm := pickHighest_mem round n0 nrest
      rw [← hf] at hm
      exact List.mem_of_mem_filter hm

lemma classifyUnused_sub {cards : List Card} {melds : List Meld} :
    ∀ c ∈ (classifyUnused cards melds).2, c ∈ cards := by
  unfold classifyUnused
  refine List.foldlRecOn (motive := fun (st : List Nat × List Card) =>
    ∀ c ∈ st.2, c ∈ cards) _ _ _ (by simp) ?_
  intro st hP p hp c hc
  have hpm : p.2 ∈ cards := by
    have hg := enum_getD (l := cards) (i := p.1) (a := p.2) (by simpa using hp)
    rw [← hg.2]
    exact getD_mem hg.1
  dsimp only at hc
  split at hc
  · exact hP c hc
  · split at hc
    · exact hP c hc
    · rcases List.mem_append.mp hc with hc | hc
      · exact hP c hc
      · rcases List.mem_singleton.mp hc with rfl
        exact hpm

lemma validDiscardsOf_sub {cards unusedCards : List Card} {round : Round} :
    ∀ c ∈ validDiscardsOf cards round unusedCards, c ∈ unusedCards := by
  unfold validDiscardsOf
  refine List.foldlRecOn (motive := fun (acc : List Card) =>
    ∀ c ∈ acc, c ∈ unusedCards) _ _ _ (by simp) ?_
  intro acc hP u hu c hc
  dsimp only at hc
  split at hc
  · exact hP c hc
  · split at hc
    · exact hP c hc
    · split at hc
      · rcases List.mem_append.mp hc with hc | hc
        · exact hP c hc
        · rcases List.mem_singleton.mp hc with rfl
          exact hu
      · exact hP c hc

/-- C7: for a non-empty hand where no discard allows going out and the
supplied meld list is empty, `suggestDiscard` on the final turn returns a
card of maximal point value (wild cards included); off the final turn it
returns a non-wild card of maximal point value among the non-wild cards
whenever one exists, and only for an all-wild hand does it return a card of
minimal point value. -/
theorem C7_no_melds_discard (c0 : Card) (crest : List Card) (round : Round)
    (hgo : goOutDiscard (c0 :: crest) round = none) :
    (∃ c, suggestDiscard (c0 :: crest) round [] true = some c ∧
      c ∈ c0 :: crest ∧
      ∀ d ∈ c0 :: crest, getCardPoints d round ≤ getCardPoints c round) ∧
    (∀ n0 nrest,
      (c0 :: crest).filter (fun card => !isWildCard card round) = n0 :: nrest →
      ∃ c, suggestDiscard (c0 :: crest) round [] false = some c ∧
        c ∈ c0 :: crest ∧ isWildCard c round = false ∧
        ∀ d ∈ c0 :: crest, isWildCard d round = false →
          getCardPoints d round ≤ getCardPoints c round) ∧
    ((c0 :: crest).filter (fun card => !isWildCard card round) = [] →
      ∃ c, suggestDiscard (c0 :: crest) round [] false = some c ∧
        c ∈ c0 :: crest ∧
        ∀ d ∈ c0 :: crest, getCardPoints c round ≤ getCardPoints d round) := by
  refine ⟨⟨pickHighest round c0 crest, ?_, pickHighest_mem round c0 crest,
    pickHighest_max round c0 crest⟩, ?_, ?_⟩
  · unfold suggestDiscard
    dsimp only
    rw [hgo]
    rfl
  · intro n0 nrest hf
    refine ⟨pickHighest round n0 nrest, ?_, ?_, ?_, ?_⟩
    · unfold suggestDiscard
      dsimp only
      rw [hgo]
      show pickNoMeldSuggestion (c0 :: crest) round false =
        some (pickHighest round n0 nrest)
      show (match (c0 :: crest).filter (fun card => !isWildCard card round) with
        | [] => some (pickLowest round c0 crest)
        | n0 :: nrest => some (pickHighest round n0 nrest)) =
        some (pickHighest round n0 nrest)
      rw [hf]
    · have hm := pickHighest_mem round n0 nrest
      rw [← hf] at hm
      exact List.mem_of_mem_filter hm
    · have hm := pickHighest_mem round n0 nrest
      rw [← hf] at hm
      have hp := List.of_mem_filter hm
      simpa using hp
    · intro d hd hdw
      have hdm : d ∈ n0 :: nrest := by
        rw [← hf]
        exact List.mem_filter.mpr ⟨hd, by simp [hdw]⟩
      exact pickHighest_max round n0 nrest d hdm
  · intro hf
    refine ⟨pickLowest round c0 crest, ?_, pickLowest_mem round c0 crest,
      pickLowest_min round c0 crest⟩
    unfold suggestDiscard
    dsimp only
    rw [hgo]
    show pickNoMeldSuggestion (c0 :: crest) round false =
      some (pickLowest round c0 crest)
    show (match (c0 :: crest).filter (fun card => !isWildCard card round) with
      | [] => some (pickLowest round c0 crest)
      | n0 :: nrest => some (pickHighest round n0 nrest)) =
      some (pickLowest round c0 crest)
    rw [hf]

theorem C7_no_melds_discard_witness :
    (∃ c, suggestDiscard [⟨Suit.clubs, Rank.rK, 0⟩, ⟨Suit.clubs, Rank.Joker, 1⟩]
        Rank.r7 [] true = some c ∧
      c ∈ [⟨Suit.clubs, Rank.rK, 0⟩, (⟨Suit.clubs, Rank.Joker, 1⟩ : Card)] ∧
      ∀ d ∈ [⟨Suit.clubs, Rank.rK, 0⟩, (⟨Suit.clubs, Rank.Joker, 1⟩ : Card)],
        getCardPoints d Rank.r7 ≤ getCardPoints c Rank.r7) ∧
    suggestDiscard [⟨Suit.clubs, Rank.rK, 0⟩, ⟨Suit.clubs, Rank.Joker, 1⟩]
        Rank.r7 [] true = some ⟨Suit.clubs, Rank.Joker, 1⟩ :=
  ⟨(C7_no_melds_discard ⟨Suit.clubs, Rank.rK, 0⟩ [⟨Suit.clubs, Rank.Joker, 1⟩]
      Rank.r7 (by decide)).1, by decide⟩

/-- C8: for every non-empty hand, round, meld list and final-turn flag,
`suggestDiscard` returns a card that is one of the hand's own instances, and
it returns `none` exactly for the empty hand. -/
theorem C8_suggestDiscard_returns_hand_card :
    (∀ (cards : List Card) (round : Round) (melds : List Meld) (f : Bool),
      cards ≠ [] →
      ∃ c, suggestDiscard cards round melds f = some c ∧ c ∈ cards) ∧
    (∀ (round : Round) (melds : List Meld) (f : Bool),
      suggestDiscard [] round melds f = none) := by
  constructor
  · intro cards round melds f hne
    obtain ⟨c0, crest, rfl⟩ := List.exists_cons_of_ne_nil hne
    unfold suggestDiscard
    dsimp only
    cases hgo : goOutDiscard (c0 :: crest) round with
    | some c =>
      exact ⟨c, rfl, goOutDiscard_mem hgo⟩
    | none =>
      dsimp only
      split
      · exact pickNoMeldSuggestion_spec c0 crest round f
      · split
        · exact ⟨_, rfl, pickLowest_mem round c0 crest⟩
        · split
          · exact pickNoMeldSuggestion_spec c0 crest round f
          · have husub : ∀ c ∈ (classifyUnused (c0 :: crest) melds).2,
                c ∈ c0 :: crest := classifyUnused_sub
            have hvsub : ∀ c ∈ validDiscardsOf (c0 :: crest) round
                ((classifyUnused (c0 :: crest) melds).2), c ∈ c0 :: crest :=
              fun c hc => husub c (validDiscardsOf_sub c hc)
            have hstrat7 : ∃ c,
                (match (classifyUnused (c0 :: crest) melds).2.filter
                    (fun c => !isWildCard c round) with
                  | n0 :: nr => some (pickHighest round n0 nr)
                  | [] =>
                    match (classifyUnused (c0 :: crest) melds).2.filter
                        (fun c => isWildCard c round) with
                    | w0 :: wr => some (pickLowest round w0 wr)
                    | [] =>
                      match (classifyUnused (c0 :: crest) melds).2 with
                      | u0 :: _ => some u0
                      | [] => some c0) = some c ∧ c ∈ c0 :: crest := by
              cases hn : (classifyUnused (c0 :: crest) melds).2.filter
                  (fun c => !isWildCard c round) with
              | cons n0 nr =>
                refine ⟨_, rfl, ?_⟩
                have hm := pickHighest_mem round n0 nr
                rw [← hn] at hm
                exact husub _ (List.mem_of_mem_filter hm)
              | nil =>
                cases hw : (classifyUnused (c0 :: crest) melds).2.filter
                    (fun c => isWildCard c round) with
                | cons w0 wr =>
                  refine ⟨_, rfl, ?_⟩
                  have hm := pickLowest_mem round w0 wr
                  rw [← hw] at hm
                  exact husub _ (List.mem_of_mem_filter hm)
                | nil =>
                  cases hu : (classifyUnused (c0 :: crest) melds).2 with
                  | cons u0 ur =>
                    refine ⟨u0, rfl, ?_⟩
                    exact husub u0 (by rw [hu]; exact List.mem_cons_self u0 ur)
                  | nil => exact ⟨c0, rfl, List.mem_cons_self c0 crest⟩
            by_cases hvl : 0 < (validDiscardsOf (c0 :: crest) round
                ((classifyUnused (c0 :: crest) melds).2)).length
            · rw [if_pos hvl]
              cases hn : (validDiscardsOf (c0 :: crest) round
                  ((classifyUnused (c0 :: crest) melds).2)).filter
                  (fun c => !isWildCard c round) with
              | cons nv0 nvr =>
                refine ⟨_, rfl, ?_⟩
                have hm := pickHighest_mem round nv0 nvr
                rw [← hn] at hm
                exact hvsub _ (List.mem_of_mem_filter hm)
              | nil =>
                cases hw : (validDiscardsOf (c0 :: crest) round
                    ((classifyUnused (c0 :: crest) melds).2)).filter
                    (fun c => isWildCard c round) with
                | cons wv0 wvr =>
                  refine ⟨_, rfl, ?_⟩
                  have hm := pickLowest_mem round wv0 wvr
                  rw [← hw] at hm
                  exact hvsub _ (List.mem_of_mem_filter hm)
                | nil =>
                  exact hstrat7
            · rw [if_neg hvl]
              exact hstrat7
  · intro round melds f
    rfl

theorem C8_suggestDiscard_returns_hand_card_witness :
    ∃ c, suggestDiscard [⟨Suit.clubs, Rank.r4, 0⟩] Rank.r3 [] false = some c ∧
      c ∈ [(⟨Suit.clubs, Rank.r4, 0⟩ : Card)] :=
  C8_suggestDiscard_returns_hand_card.1 [⟨Suit.clubs, Rank.r4, 0⟩] Rank.r3 [] false
    (by decide)

/-! ### Book enumeration: supporting lemmas -/

lemma insertSortedNat_perm (n : Nat) (l : List Nat) :
    (insertSortedNat n l).Perm (n :: l) := by
  induction l with
  | nil => exact List.Perm.refl _
  | cons m ms ih =>
    unfold insertSortedNat
    by_cases h : n ≤ m
    · rw [if_pos h]
    · rw [if_neg h]
      exact (ih.cons m).trans (List.Perm.swap n m ms)

lemma sortNat_perm (l : List Nat) : (sortNat l).Perm l := by
  induction l with
  | nil => exact List.Perm.refl _
  | cons a t ih =>
    simp only [sortNat, List.foldr_cons]
    exact (insertSortedNat_perm a _).trans (ih.cons a)

lemma structMatch_iff {h c : Card} : structMatch h c = true ↔ bkey h = bkey c := by
  unfold structMatch bkey
  simp only [Bool.or_eq_true, Bool.and_eq_true, beq_iff_eq, Prod.mk.injEq]
  constructor
  · rintro (rfl | ⟨hs, hr⟩)
    · exact ⟨rfl, rfl⟩
    · exact ⟨hs, hr⟩
  · exact fun h => Or.inr h

lemma wildBookMatch_iff {round : Round} {h c : Card}
    (hc : isWildCard c round = true) :
    wildBookMatch round h c = true ↔ bkey h = bkey c := by
  unfold wildBookMatch bkey
  simp only [Bool.or_eq_true, Bool.and_eq_true, beq_iff_eq, Prod.mk.injEq]
  constructor
  · rintro (rfl | ⟨⟨⟨hw1, hw2⟩, hs⟩, hr⟩)
    · exact ⟨rfl, rfl⟩
    · exact ⟨hs, hr⟩
  · rintro ⟨hs, hr⟩
    right
    refine ⟨⟨⟨?_, hc⟩, hs⟩, hr⟩
    rw [wild_rank_congr hr]
    exact hc

lemma bcount_append (l1 l2 : List Card) (k : Suit × Rank) :
    bcount (l1 ++ l2) k = bcount l1 k + bcount l2 k := by
  unfold bcount
  rw [List.filter_append, List.length_append]

lemma bcountIdx_append (hand : List Card) (l1 l2 : List Nat) (k : Suit × Rank) :
    bcountIdx hand (l1 ++ l2) k = bcountIdx hand l1 k + bcountIdx hand l2 k := by
  unfold bcountIdx
  rw [List.filter_append, List.length_append]

lemma bcount_sublist {l1 l2 : List Card} (h : l1.Sublist l2) (k : Suit × Rank) :
    bcount l1 k ≤ bcount l2 k :=
  (h.filter _).length_le

lemma length_filter_partition (p : Card → Bool) (l : List Card) :
    (l.filter p).length + (l.filter (fun c => !p c)).length = l.length := by
  induction l with
  | nil => rfl
  | cons a t ih =>
    by_cases hp : p a = true <;> simp [List.filter_cons, hp] <;> omega

lemma bcount_partition (p : Card → Bool) (l : List Card) (k : Suit × Rank) :
    bcount (l.filter p) k + bcount (l.filter (fun c => !p c)) k = bcount l k := by
  unfold bcount
  induction l with
  | nil => rfl
  | cons a t ih =>
    by_cases hp : p a = true <;> by_cases hk : (bkey a == k) = true <;>
      simp [List.filter_cons, hp, hk, -List.filter_filter] <;> omega

lemma bcount_eq_zero {l : List Card} {k : Suit × Rank}
    (h : ∀ c ∈ l, bkey c ≠ k) : bcount l k = 0 := by
  unfold bcount
  rw [List.filter_eq_nil_iff.mpr (fun c hc => by simp [h c hc])]
  rfl

lemma bcount_pos {l : List Card} {c : Card} (hc : c ∈ l) {k : Suit × Rank}
    (hk : bkey c = k) : 1 ≤ bcount l k := by
  unfold bcount
  exact List.length_pos_of_mem (List.mem_filter.mpr ⟨hc, by simp [hk]⟩)

lemma bcount_perm {l1 l2 : List Card} (h : l1.Perm l2) (k : Suit × Rank) :
    bcount l1 k = bcount l2 k :=
  (h.filter _).length_eq

lemma bcount_range (hand : List Card) (k : Suit × Rank) :
    bcountIdx hand (List.range hand.length) k = bcount hand k :=
  range_filter_getD (fun c => bkey c == k)

lemma foFold_nodup (l : List Rank) : ∀ acc : List Rank, acc.Nodup →
    (l.foldl (fun acc r => if acc.contains r then acc else acc ++ [r]) acc).Nodup := by
  induction l with
  | nil => exact fun acc h => h
  | cons a t ih =>
    intro acc h
    simp only [List.foldl_cons]
    by_cases hc : acc.contains a = true
    · rw [if_pos hc]
      exact ih acc h
    · rw [if_neg hc]
      refine ih _ ?_
      have ha : a ∉ acc := by simpa using hc
      simp [List.nodup_append, h, ha]

lemma foFold_mem (l : List Rank) : ∀ (acc : List Rank) (x : Rank),
    x ∈ l.foldl (fun acc r => if acc.contains r then acc else acc ++ [r]) acc ↔
      x ∈ acc ∨ x ∈ l := by
  induction l with
  | nil => simp
  | cons a t ih =>
    intro acc x
    simp only [List.foldl_cons]
    by_cases hc : acc.contains a = true
    · rw [if_pos hc, ih]
      have ha : a ∈ acc := by simpa using hc
      constructor
      · rintro (h | h)
        · exact Or.inl h
        · exact Or.inr (List.mem_cons_of_mem a h)
      · rintro (h | h)
        · exact Or.inl h
        · rcases List.mem_cons.mp h with rfl | h
          · exact Or.inl ha
          · exact Or.inr h
    · rw [if_neg hc, ih]
      simp only [List.mem_append, List.mem_singleton, List.mem_cons]
      tauto

lemma firstOccurrences_nodup (l : List Rank) : (firstOccurrences l).Nodup :=
  foFold_nodup l [] List.nodup_nil

lemma mem_firstOccurrences {l : List Rank} {x : Rank} :
    x ∈ firstOccurrences l ↔ x ∈ l := by
  unfold firstOccurrences
  rw [foFold_mem]
  simp

lemma foldl_flatMap {α β σ : Type _} (g : α → List β) (f : σ → β → σ)
    (l : List α) (st : σ) :
    (l.flatMap g).foldl f st = l.foldl (fun st a => (g a).foldl f st) st := by
  induction l generalizing st with
  | nil => rfl
  | cons a t ih => simp [List.flatMap_cons, List.foldl_append, ih]

lemma foldl_congr_fun {σ α : Type _} {f g : σ → α → σ} (h : ∀ s a, f s a = g s a) :
    ∀ (l : List α) (s : σ), l.foldl f s = l.foldl g s := by
  intro l
  induction l with
  | nil => intro s; rfl
  | cons a t ih =>
    intro s
    simp only [List.foldl_cons, h s a]
    exact ih _

lemma foldl_ite_filterMap {σ α β : Type _} (f : σ → α → σ) (p : β → Prop)
    [DecidablePred p] (g : β → α) (l : List β) (st : σ) :
    l.foldl (fun st b => if p b then f st (g b) else st) st =
      (l.filterMap (fun b => if p b then some (g b) else none)).foldl f st := by
  induction l generalizing st with
  | nil => rfl
  | cons b t ih =>
    by_cases hb : p b
    · simp [List.filterMap_cons, hb, ih]
    · simp [List.filterMap_cons, hb, ih]

lemma pairwise_range_strong (n : Nat) :
    List.Pairwise (fun a b => a < b ∧ b < n) (List.range n) := by
  rw [List.pairwise_iff_getElem]
  intro i j hi hj hij
  rw [List.length_range] at hi hj
  simp only [List.getElem_range]
  exact ⟨hij, hj⟩

lemma pairwise_range'_strong (s n : Nat) :
    List.Pairwise (fun a b => a < b ∧ b < s + n) (List.range' s n) := by
  rw [List.pairwise_iff_getElem]
  intro i j hi hj hij
  rw [List.length_range'] at hi hj
  simp only [List.getElem_range']
  omega

lemma bcount_cons (c : Card) (l : List Card) (k : Suit × Rank) :
    bcount (c :: l) k = (if bkey c = k then 1 else 0) + bcount l k := by
  unfold bcount
  rw [List.filter_cons]
  by_cases hk : bkey c = k
  · rw [if_pos (by simpa using hk), if_pos hk, List.length_cons]
    omega
  · rw [if_neg (by simpa using hk), if_neg hk]
    omega

lemma bcountIdx_cons (hand : List Card) (i : Nat) (l : List Nat) (k : Suit × Rank) :
    bcountIdx hand (i :: l) k =
      (if bkey (hand.getD i default) = k then 1 else 0) + bcountIdx hand l k := by
  unfold bcountIdx
  rw [List.filter_cons]
  by_cases hk : bkey (hand.getD i default) = k
  · rw [if_pos (by simpa using hk), if_pos hk, List.length_cons]
    omega
  · rw [if_neg (by simpa using hk), if_neg hk]
    omega

lemma firstFitGo_spec {hand : List Card} {m : Card → Card → Bool} {P : Card → Prop}
    (hm : ∀ h c, P c → (m h c = true ↔ bkey h = bkey c)) :
    ∀ (cs : List Card) (used : List Nat),
      (∀ c ∈ cs, P c) →
      (∀ k, bcount cs k + bcountIdx hand used k ≤ bcount hand k) →
      ∃ idxs, firstFitGo hand m cs used = some idxs ∧
        idxs.length = cs.length ∧
        (∀ i ∈ idxs, i < hand.length ∧ i ∉ used) ∧
        idxs.Nodup ∧
        (∀ k, bcountIdx hand idxs k = bcount cs k) := by
  intro cs
  induction cs with
  | nil =>
    intro used _ _
    exact ⟨[], rfl, rfl, by simp, List.nodup_nil,
      fun k => by simp [bcountIdx, bcount]⟩
  | cons c cs ih =>
    intro used hP hfeas
    have h1 : 1 ≤ bcount (c :: cs) (bkey c) :=
      bcount_pos (List.mem_cons_self c cs) rfl
    have hlt : bcountIdx hand used (bkey c) < bcount hand (bkey c) := by
      have := hfeas (bkey c)
      omega
    have hex : ∃ i ∈ List.range hand.length,
        (!used.contains i && m (hand.getD i default) c) = true := by
      by_contra hno
      push_neg at hno
      have hsub : (List.range hand.length).filter
          (fun i => bkey (hand.getD i default) == bkey c) ⊆
          used.filter (fun i => bkey (hand.getD i default) == bkey c) := by
        intro i hi
        have hi1 := List.mem_of_mem_filter hi
        have hi2 := List.of_mem_filter hi
        have hiu : i ∈ used := by
          by_contra hiu
          have hmi : m (hand.getD i default) c = true :=
            (hm _ c (hP c (List.mem_cons_self c cs))).mpr (by simpa using hi2)
          have hcond : (!used.contains i && m (hand.getD i default) c) = true := by
            rw [Bool.and_eq_true]
            exact ⟨by simpa using hiu, hmi⟩
          exact hno i hi1 hcond
        exact List.mem_filter.mpr ⟨hiu, hi2⟩
      have hnd : ((List.range hand.length).filter
          (fun i => bkey (hand.getD i default) == bkey c)).Nodup :=
        (List.nodup_range _).filter _
      have hle := (List.subperm_of_subset hnd hsub).length_le
      have hL : bcount hand (bkey c) ≤ bcountIdx hand used (bkey c) := by
        rw [← bcount_range]
        exact hle
      omega
    have hfind : (findFirstUnused hand m used c).isSome = true := by
      unfold findFirstUnused
      rw [List.find?_isSome]
      exact hex
    obtain ⟨i, hi⟩ := Option.isSome_iff_exists.mp hfind
    unfold findFirstUnused at hi
    have hip := List.find?_some hi
    have himem := List.mem_of_find?_eq_some hi
    rw [Bool.and_eq_true] at hip
    have hiu : i ∉ used := by simpa using hip.1
    have hik : bkey (hand.getD i default) = bkey c :=
      (hm _ c (hP c (List.mem_cons_self c cs))).mp hip.2
    have hilt : i < hand.length := List.mem_range.mp himem
    have hfeas' : ∀ k, bcount cs k + bcountIdx hand (used ++ [i]) k ≤ bcount hand k := by
      intro k
      have hfk := hfeas k
      have e1 : bcountIdx hand (used ++ [i]) k =
          bcountIdx hand used k + ((if bkey c = k then 1 else 0) + bcountIdx hand [] k) := by
        rw [bcountIdx_append, bcountIdx_cons, hik]
      have e2 := bcount_cons c cs k
      have e3 : bcountIdx hand ([] : List Nat) k = 0 := rfl
      omega
    obtain ⟨rest, hrest, hlen, hmemr, hnd, hprof⟩ :=
      ih (used ++ [i]) (fun d hd => hP d (List.mem_cons_of_mem c hd)) hfeas'
    refine ⟨i :: rest, ?_, ?_, ?_, ?_, ?_⟩
    · show (match findFirstUnused hand m used c with
        | none => none
        | some j =>
          match firstFitGo hand m cs (used ++ [j]) with
          | none => none
          | some rest => some (j :: rest)) = some (i :: rest)
      rw [show findFirstUnused hand m used c =
        (List.range hand.length).find? (fun j =>
          !used.contains j && m (hand.getD j default) c) from rfl]
      rw [hi]
      dsimp only
      rw [hrest]
    · simp [hlen]
    · intro x hx
      rcases List.mem_cons.mp hx with rfl | hx
      · exact ⟨hilt, hiu⟩
      · obtain ⟨hx1, hx2⟩ := hmemr x hx
        exact ⟨hx1, fun hxu => hx2 (List.mem_append.mpr (Or.inl hxu))⟩
    · refine List.nodup_cons.mpr ⟨?_, hnd⟩
      intro hir
      exact (hmemr i hir).2
        (List.mem_append.mpr (Or.inr (List.mem_singleton.mpr rfl)))
    · intro k
      have hpk := hprof k
      rw [bcountIdx_cons, hik, bcount_cons]
      omega

lemma firstFit_spec {hand : List Card} {m : Card → Card → Bool} {P : Card → Prop}
    (hm : ∀ h c, P c → (m h c = true ↔ bkey h = bkey c)) {cs : List Card}
    (hP : ∀ c ∈ cs, P c)
    (hfeas : ∀ k, bcount cs k ≤ bcount hand k) :
    ∃ idxs, firstFit hand m cs = some idxs ∧ idxs.length = cs.length ∧
      idxs.Nodup ∧ (∀ k, bcountIdx hand idxs k = bcount cs k) := by
  obtain ⟨idxs, h1, h2, _, h4, h5⟩ :=
    firstFitGo_spec hm cs [] hP (fun k => by simpa [bcountIdx] using hfeas k)
  exact ⟨idxs, h1, h2, h4, h5⟩

lemma bkey_neq_of_profile {hand : List Card} {m1 m2 : Card → Card → Bool}
    {bs1 bs2 : List Card} {i1 i2 : List Nat}
    (h1 : firstFit hand m1 bs1 = some i1) (hl1 : i1.length = bs1.length)
    (hp1 : ∀ k, bcountIdx hand i1 k = bcount bs1 k)
    (h2 : firstFit hand m2 bs2 = some i2) (hl2 : i2.length = bs2.length)
    (hp2 : ∀ k, bcountIdx hand i2 k = bcount bs2 k)
    (hR : bs1.length ≠ bs2.length ∨ ∃ k, bcount bs1 k ≠ bcount bs2 k) :
    bkeyOf hand m1 bs1 ≠ bkeyOf hand m2 bs2 := by
  intro he
  have hk1 : bkeyOf hand m1 bs1 = sortNat i1 := by
    unfold bkeyOf
    rw [h1]
    rfl
  have hk2 : bkeyOf hand m2 bs2 = sortNat i2 := by
    unfold bkeyOf
    rw [h2]
    rfl
  rw [hk1, hk2] at he
  have hperm : i1.Perm i2 :=
    ((sortNat_perm i1).symm.trans (he ▸ sortNat_perm i2))
  rcases hR with hR | ⟨k, hR⟩
  · exact hR (by rw [← hl1, ← hl2, hperm.length_eq])
  · refine hR ?_
    rw [← hp1 k, ← hp2 k]
    exact (hperm.filter _).length_eq

lemma mem_groupCandidates {cards : List Card} {round : Round} {bs : List Card} :
    bs ∈ groupCandidates cards round ↔
      ∃ rk, rk ∈ firstOccurrences
          ((cards.filter (fun c => !isWildCard c round)).map (·.rank)) ∧
        ∃ w, w ≤ (cards.filter (fun c => isWildCard c round)).length ∧
          ((cards.filter (fun c => !isWildCard c round)).filter
            (fun c => c.rank == rk)).length + w ≥ 3 ∧
          bs = (cards.filter (fun c => !isWildCard c round)).filter
            (fun c => c.rank == rk) ++
            (cards.filter (fun c => isWildCard c round)).take w := by
  unfold groupCandidates
  simp only [List.mem_flatMap, List.mem_filterMap, List.mem_range]
  constructor
  · rintro ⟨rk, hrk, w, hw, hite⟩
    split at hite
    · exact ⟨rk, hrk, w, by omega, ‹_›, (Option.some.inj hite).symm⟩
    · cases hite
  · rintro ⟨rk, hrk, w, hw, hgate, rfl⟩
    refine ⟨rk, hrk, w, by omega, ?_⟩
    rw [if_pos hgate]

lemma mem_allWildCandidates {cards : List Card} {round : Round} {bs : List Card}
    (h : bs ∈ allWildCandidates cards round) :
    ∃ s, 3 ≤ s ∧ s ≤ (cards.filter (fun c => isWildCard c round)).length ∧
      bs = (cards.filter (fun c => isWildCard c round)).take s := by
  unfold allWildCandidates at h
  split at h
  · simp only [List.mem_map] at h
    obtain ⟨s, hs, rfl⟩ := h
    have hb := List.mem_range'_1.mp hs
    exact ⟨s, hb.1, by omega, rfl⟩
  · cases h

lemma groupCandidates_feasible {cards : List Card} {round : Round} :
    ∀ bs ∈ groupCandidates cards round, ∀ k, bcount bs k ≤ bcount cards k := by
  intro bs hbs k
  obtain ⟨rk, _, w, _, _, rfl⟩ := mem_groupCandidates.mp hbs
  rw [bcount_append]
  have hA : bcount ((cards.filter (fun c => !isWildCard c round)).filter
      (fun c => c.rank == rk)) k ≤
      bcount (cards.filter (fun c => !isWildCard c round)) k :=
    bcount_sublist (List.filter_sublist _) k
  have hB : bcount ((cards.filter (fun c => isWildCard c round)).take w) k ≤
      bcount (cards.filter (fun c => isWildCard c round)) k :=
    bcount_sublist (List.take_sublist _ _) k
  have hC := bcount_partition (fun c => isWildCard c round) cards k
  omega

lemma allWildCandidates_feasible {cards : List Card} {round : Round} :
    ∀ bs ∈ allWildCandidates cards round, ∀ k, bcount bs k ≤ bcount cards k := by
  intro bs hbs k
  obtain ⟨s, _, _, rfl⟩ := mem_allWildCandidates hbs
  have hB : bcount ((cards.filter (fun c => isWildCard c round)).take s) k ≤
      bcount (cards.filter (fun c => isWildCard c round)) k :=
    bcount_sublist (List.take_sublist _ _) k
  have hC := bcount_partition (fun c => isWildCard c round) cards k
  omega

lemma allWildCandidates_wild {cards : List Card} {round : Round} :
    ∀ bs ∈ allWildCandidates cards round, ∀ d ∈ bs, isWildCard d round = true := by
  intro bs hbs d hd
  obtain ⟨s, _, _, rfl⟩ := mem_allWildCandidates hbs
  have hsub : (List.take s (cards.filter (fun c => isWildCard c round))).Sublist
      (cards.filter (fun c => isWildCard c round)) := List.take_sublist s _
  have hmem : d ∈ List.filter (fun c => isWildCard c round) cards := hsub.subset hd
  simpa using List.of_mem_filter hmem

lemma tryEmitBook_fold {hand : List Card} {m : Card → Card → Bool} :
    ∀ (cl : List (List Card)) (bs0 : List Meld) (ks0 : List (List Nat)),
      (∀ bs ∈ cl, (firstFit hand m bs).isSome = true) →
      (∀ bs ∈ cl, ∀ k ∈ ks0, bkeyOf hand m bs ≠ k) →
      cl.Pairwise (fun a b => bkeyOf hand m a ≠ bkeyOf hand m b) →
      cl.foldl (tryEmitBook hand m) (bs0, ks0) =
        (bs0 ++ cl.map (fun bs => ⟨bs, MeldType.book⟩),
         ks0 ++ cl.map (bkeyOf hand m)) := by
  intro cl
  induction cl with
  | nil =>
    intro bs0 ks0 _ _ _
    simp
  | cons b t ih =>
    intro bs0 ks0 hres hnew hpair
    simp only [List.foldl_cons]
    obtain ⟨idxs, hidxs⟩ :=
      Option.isSome_iff_exists.mp (hres b (List.mem_cons_self b t))
    have hkey : bkeyOf hand m b = sortNat idxs := by
      unfold bkeyOf
      rw [hidxs]
      rfl
    have hnotin : sortNat idxs ∉ ks0 := by
      intro hmem
      exact hnew b (List.mem_cons_self b t) _ hmem hkey
    have hstep : tryEmitBook hand m (bs0, ks0) b =
        (bs0 ++ [⟨b, MeldType.book⟩], ks0 ++ [sortNat idxs]) := by
      unfold tryEmitBook
      rw [hidxs]
      dsimp only
      rw [if_neg (by simpa using hnotin)]
    have hres' : ∀ bs ∈ t, (firstFit hand m bs).isSome = true :=
      fun bs hbs => hres bs (List.mem_cons_of_mem b hbs)
    have hnew' : ∀ bs ∈ t, ∀ k ∈ ks0 ++ [sortNat idxs], bkeyOf hand m bs ≠ k := by
      intro bs hbs k hk
      rcases List.mem_append.mp hk with hk | hk
      · exact hnew bs (List.mem_cons_of_mem b hbs) k hk
      · rcases List.mem_singleton.mp hk with rfl
        rw [← hkey]
        exact Ne.symm ((List.pairwise_cons.mp hpair).1 bs hbs)
    have ht := ih (bs0 ++ [⟨b, MeldType.book⟩]) (ks0 ++ [sortNat idxs]) hres' hnew'
      (List.pairwise_cons.mp hpair).2
    rw [hstep, ht]
    simp [hkey]

lemma isWild_rank_mem {c : Card} {round : Round} (h : isWildCard c round = true) :
    c.rank = round ∨ c.rank = Rank.Joker := by
  unfold isWildCard at h
  rw [Bool.or_eq_true] at h
  rcases h with h | h
  · exact Or.inl (eq_of_beq h)
  · exact Or.inr (eq_of_beq h)

lemma group_elem_rank {cards : List Card} {round : Round} {rk : Rank} {w : Nat}
    {d : Card}
    (hd : d ∈ (cards.filter (fun c => !isWildCard c round)).filter
        (fun c => c.rank == rk) ++
        (cards.filter (fun c => isWildCard c round)).take w) :
    d.rank = rk ∨ d.rank = round ∨ d.rank = Rank.Joker := by
  rcases List.mem_append.mp hd with hd | hd
  · exact Or.inl (by simpa using List.of_mem_filter hd)
  · right
    have hsub : (List.take w (cards.filter (fun c => isWildCard c round))).Sublist
        (cards.filter (fun c => isWildCard c round)) := List.take_sublist w _
    have hmem : d ∈ List.filter (fun c => isWildCard c round) cards := hsub.subset hd
    exact isWild_rank_mem (by simpa using List.of_mem_filter hmem)

lemma group_bcount_zero {cards : List Card} {round : Round} {rk : Rank} {w : Nat}
    {c₀ : Card} (hreg : isWildCard c₀ round = false) (hrk : c₀.rank ≠ rk) :
    bcount ((cards.filter (fun c => !isWildCard c round)).filter
        (fun c => c.rank == rk) ++
        (cards.filter (fun c => isWildCard c round)).take w) (bkey c₀) = 0 := by
  apply bcount_eq_zero
  intro d hd hbk
  have hr : d.rank = c₀.rank := congrArg Prod.snd hbk
  rcases group_elem_rank hd with h | h | h
  · exact hrk (by rw [← hr, h])
  · rw [hr] at h
    simp [isWildCard, h] at hreg
  · rw [hr] at h
    simp [isWildCard, h] at hreg

lemma allwild_bcount_zero {cards : List Card} {round : Round} {s : Nat}
    {c₀ : Card} (hreg : isWildCard c₀ round = false) :
    bcount ((cards.filter (fun c => isWildCard c round)).take s) (bkey c₀) = 0 := by
  apply bcount_eq_zero
  intro d hd hbk
  have hr : d.rank = c₀.rank := congrArg Prod.snd hbk
  have hsub : (List.take s (cards.filter (fun c => isWildCard c round))).Sublist
      (cards.filter (fun c => isWildCard c round)) := List.take_sublist s _
  have hmem : d ∈ List.filter (fun c => isWildCard c round) cards := hsub.subset hd
  have hdw : isWildCard d round = true := by simpa using List.of_mem_filter hmem
  rw [wild_rank_congr hr, hreg] at hdw
  cases hdw

lemma group_bcount_pos {cards : List Card} {round : Round} {rk : Rank} {w : Nat}
    {c₀ : Card} (hc₀ : c₀ ∈ cards.filter (fun c => !isWildCard c round))
    (hrk : c₀.rank = rk) :
    1 ≤ bcount ((cards.filter (fun c => !isWildCard c round)).filter
        (fun c => c.rank == rk) ++
        (cards.filter (fun c => isWildCard c round)).take w) (bkey c₀) :=
  bcount_pos (List.mem_append.mpr (Or.inl
    (List.mem_filter.mpr ⟨hc₀, by simp [hrk]⟩))) rfl

lemma exists_reg_of_mem_ranks {cards : List Card} {round : Round} {rk : Rank}
    (h : rk ∈ firstOccurrences
        ((cards.filter (fun c => !isWildCard c round)).map (·.rank))) :
    ∃ c₀ ∈ cards.filter (fun c => !isWildCard c round), c₀.rank = rk := by
  have := mem_firstOccurrences.mp h
  simpa [List.mem_map] using this

lemma candidates_profile_distinct (cards : List Card) (round : Round) :
    List.Pairwise (fun a b => a.length ≠ b.length ∨ ∃ k, bcount a k ≠ bcount b k)
      (groupCandidates cards round ++ allWildCandidates cards round) := by
  rw [List.pairwise_append]
  refine ⟨?_, ?_, ?_⟩
  · unfold groupCandidates
    rw [List.pairwise_flatMap]
    constructor
    · intro rk _
      rw [List.pairwise_filterMap]
      refine (pairwise_range_strong _).imp ?_
      rintro w w' ⟨hlt, hub⟩ bs hbs bs' hbs'
      simp only [Option.mem_def] at hbs hbs'
      split at hbs
      · split at hbs'
        · obtain rfl := Option.some.inj hbs
          obtain rfl := Option.some.inj hbs'
          left
          rw [List.length_append, List.length_append, List.length_take,
            List.length_take]
          omega
        · cases hbs'
      · cases hbs
    · refine List.Pairwise.imp_of_mem ?_ (firstOccurrences_nodup _)
      intro rk rk' hmrk hmrk' hne bs hbs bs' hbs'
      rw [List.mem_filterMap] at hbs hbs'
      obtain ⟨w, hwr, hite⟩ := hbs
      obtain ⟨w', hwr', hite'⟩ := hbs'
      split at hite
      · split at hite'
        · obtain rfl := Option.some.inj hite
          obtain rfl := Option.some.inj hite'
          right
          obtain ⟨c₀, hc₀, hc₀rk⟩ := exists_reg_of_mem_ranks hmrk
          have hreg : isWildCard c₀ round = false := by
            simpa using List.of_mem_filter hc₀
          refine ⟨bkey c₀, ?_⟩
          have h1 := group_bcount_pos (w := w) hc₀ hc₀rk
          have h0 : bcount ((cards.filter (fun c => !isWildCard c round)).filter
              (fun c => c.rank == rk') ++
              (cards.filter (fun c => isWildCard c round)).take w')
              (bkey c₀) = 0 :=
            group_bcount_zero hreg (by rw [hc₀rk]; exact hne)
          omega
        · cases hite'
      · cases hite
  · unfold allWildCandidates
    split
    · rename_i hW3
      rw [List.pairwise_map]
      refine (pairwise_range'_strong 3 _).imp ?_
      rintro s s' ⟨hlt, hub⟩
      left
      rw [List.length_take, List.length_take]
      omega
    · exact List.Pairwise.nil
  · intro bs hbs bs' hbs'
    right
    obtain ⟨rk, hmrk, w, hw, hgate, rfl⟩ := mem_groupCandidates.mp hbs
    obtain ⟨s, hs3, hsW, rfl⟩ := mem_allWildCandidates hbs'
    obtain ⟨c₀, hc₀, hc₀rk⟩ := exists_reg_of_mem_ranks hmrk
    have hreg : isWildCard c₀ round = false := by
      simpa using List.of_mem_filter hc₀
    refine ⟨bkey c₀, ?_⟩
    have h1 := group_bcount_pos (w := w) hc₀ hc₀rk
    have h0 : bcount ((cards.filter (fun c => isWildCard c round)).take s)
        (bkey c₀) = 0 := allwild_bcount_zero hreg
    omega

lemma findBooks_as_folds (cards : List Card) (round : Round) :
    findBooks cards round =
      ((allWildCandidates cards round).foldl (tryEmitBook cards (wildBookMatch round))
        ((groupCandidates cards round).foldl (tryEmitBook cards structMatch)
          (([], []) : List Meld × List (List Nat)))).1 := by
  unfold findBooks
  dsimp only
  refine congrArg Prod.fst ?_
  have hbody : ∀ (st : List Meld × List (List Nat)) (rk : Rank),
      (if (List.filter (fun c => c.rank == rk)
            (List.filter (fun c => !isWildCard c round) cards)).length +
          (List.filter (fun c => isWildCard c round) cards).length ≥ 3 then
        List.foldl
          (fun st numWilds =>
            if (List.filter (fun c => c.rank == rk)
                (List.filter (fun c => !isWildCard c round) cards)).length +
                numWilds ≥ 3 then
              tryEmitBook cards structMatch st
                (List.filter (fun c => c.rank == rk)
                  (List.filter (fun c => !isWildCard c round) cards) ++
                  List.take numWilds (List.filter (fun c => isWildCard c round) cards))
            else st)
          st (List.range ((List.filter (fun c => isWildCard c round) cards).length + 1))
      else st) =
      List.foldl (tryEmitBook cards structMatch) st
        ((List.range ((List.filter (fun c => isWildCard c round) cards).length + 1)).filterMap
          (fun w =>
            if (List.filter (fun c => c.rank == rk)
                (List.filter (fun c => !isWildCard c round) cards)).length + w ≥ 3 then
              some (List.filter (fun c => c.rank == rk)
                (List.filter (fun c => !isWildCard c round) cards) ++
                List.take w (List.filter (fun c => isWildCard c round) cards))
            else none)) := by
    intro st rk
    by_cases hg : (List.filter (fun c => c.rank == rk)
        (List.filter (fun c => !isWildCard c round) cards)).length +
        (List.filter (fun c => isWildCard c round) cards).length ≥ 3
    · rw [if_pos hg]
      exact foldl_ite_filterMap (tryEmitBook cards structMatch) _ _ _ st
    · rw [if_neg hg]
      have hnil : (List.range
          ((List.filter (fun c => isWildCard c round) cards).length + 1)).filterMap
          (fun w =>
            if (List.filter (fun c => c.rank == rk)
                (List.filter (fun c => !isWildCard c round) cards)).length + w ≥ 3 then
              some (List.filter (fun c => c.rank == rk)
                (List.filter (fun c => !isWildCard c round) cards) ++
                List.take w (List.filter (fun c => isWildCard c round) cards))
            else none) = [] := by
        rw [List.filterMap_eq_nil_iff]
        intro w hw
        have hwr := List.mem_range.mp hw
        have hx : ¬ ((List.filter (fun c => c.rank == rk)
            (List.filter (fun c => !isWildCard c round) cards)).length + w ≥ 3) := by
          omega
        rw [if_neg hx]
      rw [hnil]
      rfl
  have h1 : List.foldl
      (fun (st : List Meld × List (List Nat)) rk =>
        if (List.filter (fun c => c.rank == rk)
              (List.filter (fun c => !isWildCard c round) cards)).length +
            (List.filter (fun c => isWildCard c round) cards).length ≥ 3 then
          List.foldl
            (fun st numWilds =>
              if (List.filter (fun c => c.rank == rk)
                  (List.filter (fun c => !isWildCard c round) cards)).length +
                  numWilds ≥ 3 then
                tryEmitBook cards structMatch st
                  (List.filter (fun c => c.rank == rk)
                    (List.filter (fun c => !isWildCard c round) cards) ++
                    List.take numWilds
                      (List.filter (fun c => isWildCard c round) cards))
              else st)
            st (List.range ((List.filter (fun c => isWildCard c round) cards).length + 1))
        else st)
      (([], []) : List Meld × List (List Nat))
      (firstOccurrences (List.map (fun x => x.rank)
        (List.filter (fun c => !isWildCard c round) cards))) =
      List.foldl (tryEmitBook cards structMatch) ([], [])
        (groupCandidates cards round) := by
    rw [foldl_congr_fun hbody]
    rw [← foldl_flatMap]
    rfl
  rw [h1]
  by_cases hW : (List.filter (fun c => isWildCard c round) cards).length ≥ 3
  · rw [if_pos hW]
    have h2 : allWildCandidates cards round =
        (List.range' 3 ((List.filter (fun c => isWildCard c round) cards).length - 2)).map
          (fun s => List.take s (List.filter (fun c => isWildCard c round) cards)) := by
      unfold allWildCandidates
      rw [if_pos hW]
    rw [h2, List.foldl_map]
  · rw [if_neg hW]
    have h2 : allWildCandidates cards round = [] := by
      unfold allWildCandidates
      rw [if_neg hW]
    rw [h2]
    rfl

lemma booksSpec_eq (cards : List Card) (round : Round) :
    booksSpec cards round =
      (groupCandidates cards round ++ allWildCandidates cards round).map
        (fun bs => (⟨bs, MeldType.book⟩ : Meld)) := by
  unfold booksSpec groupCandidates allWildCandidates
  dsimp only
  rw [List.map_append]
  congr 1
  · rw [List.map_flatMap]
    apply List.flatMap_congr
    intro rk _
    rw [List.map_filterMap]
    apply List.filterMap_congr
    intro w _
    rw [apply_ite (Option.map (fun bs => (⟨bs, MeldType.book⟩ : Meld)))]
    rfl
  · rw [apply_ite (List.map (fun bs => (⟨bs, MeldType.book⟩ : Meld))), List.map_map]
    rfl

lemma booksSpec_small {cards : List Card} {round : Round} (h : cards.length < 3) :
    booksSpec cards round = [] := by
  rw [booksSpec_eq]
  have hpart := length_filter_partition (fun c => isWildCard c round) cards
  have hg : groupCandidates cards round = [] := by
    unfold groupCandidates
    rw [List.flatMap_eq_nil_iff]
    intro rk _
    rw [List.filterMap_eq_nil_iff]
    intro w hw
    have hwlt := List.mem_range.mp hw
    have hle := List.length_filter_le (fun c => c.rank == rk)
      (cards.filter (fun c => !isWildCard c round))
    have hx : ¬ (((cards.filter (fun c => !isWildCard c round)).filter
        (fun c => c.rank == rk)).length + w ≥ 3) := by
      omega
    rw [if_neg hx]
  have ha : allWildCandidates cards round = [] := by
    unfold allWildCandidates
    have hx : ¬ ((cards.filter (fun c => isWildCard c round)).length ≥ 3) := by
      omega
    rw [if_neg hx]
  rw [hg, ha]
  rfl

lemma findBooks_eq_booksSpec (cards : List Card) (round : Round) :
    findBooks cards round = booksSpec cards round := by
  have hspecg : ∀ bs ∈ groupCandidates cards round,
      ∃ idxs, firstFit cards structMatch bs = some idxs ∧
        idxs.length = bs.length ∧
        (∀ k, bcountIdx cards idxs k = bcount bs k) := by
    intro bs hbs
    obtain ⟨idxs, h1, h2, _, h4⟩ := firstFit_spec (P := fun _ => True)
      (fun h c _ => structMatch_iff) (fun c _ => trivial)
      (groupCandidates_feasible bs hbs)
    exact ⟨idxs, h1, h2, h4⟩
  have hspeca : ∀ bs ∈ allWildCandidates cards round,
      ∃ idxs, firstFit cards (wildBookMatch round) bs = some idxs ∧
        idxs.length = bs.length ∧
        (∀ k, bcountIdx cards idxs k = bcount bs k) := by
    intro bs hbs
    obtain ⟨idxs, h1, h2, _, h4⟩ := firstFit_spec
      (P := fun c => isWildCard c round = true)
      (fun h c hc => wildBookMatch_iff hc) (allWildCandidates_wild bs hbs)
      (allWildCandidates_feasible bs hbs)
    exact ⟨idxs, h1, h2, h4⟩
  have hresg : ∀ bs ∈ groupCandidates cards round,
      (firstFit cards structMatch bs).isSome = true := by
    intro bs hbs
    obtain ⟨idxs, h1, _, _⟩ := hspecg bs hbs
    rw [h1]
    rfl
  have hresa : ∀ bs ∈ allWildCandidates cards round,
      (firstFit cards (wildBookMatch round) bs).isSome = true := by
    intro bs hbs
    obtain ⟨idxs, h1, _, _⟩ := hspeca bs hbs
    rw [h1]
    rfl
  have hdistAll := candidates_profile_distinct cards round
  rw [List.pairwise_append] at hdistAll
  obtain ⟨hdg, hda, hcross⟩ := hdistAll
  have hkeyg : (groupCandidates cards round).Pairwise
      (fun a b => bkeyOf cards structMatch a ≠ bkeyOf cards structMatch b) := by
    refine List.Pairwise.imp_of_mem ?_ hdg
    intro a b ha hb hR
    obtain ⟨i1, e1, l1, p1⟩ := hspecg a ha
    obtain ⟨i2, e2, l2, p2⟩ := hspecg b hb
    exact bkey_neq_of_profile e1 l1 p1 e2 l2 p2 hR
  have hkeya : (allWildCandidates cards round).Pairwise
      (fun a b => bkeyOf cards (wildBookMatch round) a ≠
        bkeyOf cards (wildBookMatch round) b) := by
    refine List.Pairwise.imp_of_mem ?_ hda
    intro a b ha hb hR
    obtain ⟨i1, e1, l1, p1⟩ := hspeca a ha
    obtain ⟨i2, e2, l2, p2⟩ := hspeca b hb
    exact bkey_neq_of_profile e1 l1 p1 e2 l2 p2 hR
  have hkeyx : ∀ bs ∈ allWildCandidates cards round,
      ∀ k ∈ ([] : List (List Nat)) ++
        (groupCandidates cards round).map (bkeyOf cards structMatch),
        bkeyOf cards (wildBookMatch round) bs ≠ k := by
    intro bs hbs k hk
    rw [List.nil_append, List.mem_map] at hk
    obtain ⟨a, ha, rfl⟩ := hk
    obtain ⟨i1, e1, l1, p1⟩ := hspecg a ha
    obtain ⟨i2, e2, l2, p2⟩ := hspeca bs hbs
    exact Ne.symm (bkey_neq_of_profile e1 l1 p1 e2 l2 p2 (hcross a ha bs hbs))
  rw [findBooks_as_folds]
  rw [tryEmitBook_fold (groupCandidates cards round) [] [] hresg
    (fun bs _ k hk => absurd hk (List.not_mem_nil k)) hkeyg]
  rw [tryEmitBook_fold (allWildCandidates cards round)
    ([] ++ (groupCandidates cards round).map (fun bs => (⟨bs, MeldType.book⟩ : Meld)))
    ([] ++ (groupCandidates cards round).map (bkeyOf cards structMatch))
    hresa hkeyx hkeya]
  rw [booksSpec_eq, List.map_append]
  simp

/-- C4: for every hand and round, the books in `findMelds`' output are exactly
the enumeration of `booksSpec` — for each rank group of size r (in first-rank-
occurrence order) one book per wild count w with r + w ≥ 3 holding all r
non-wild cards of that rank plus the first w wild instances, then one all-wild
book of every size from 3 up to the wild count — and no two emitted books hold
permutation-equal card lists, so no two resolve to the same set of physical
card instances. -/
theorem C4_books_exact (cards : List Card) (round : Round) :
    (findMelds cards round).filter (fun m => m.type == MeldType.book) =
      booksSpec cards round ∧
    List.Pairwise (fun a b => ¬ a.cards.Perm b.cards)
      ((findMelds cards round).filter (fun m => m.type == MeldType.book)) := by
  have hmain : (findMelds cards round).filter (fun m => m.type == MeldType.book) =
      booksSpec cards round := by
    unfold findMelds
    by_cases h3 : cards.length < 3
    · rw [if_pos h3, booksSpec_small h3]
      rfl
    · rw [if_neg h3, List.filter_append]
      have hb : (findBooks cards round).filter
          (fun m => m.type == MeldType.book) = findBooks cards round := by
        rw [List.filter_eq_self]
        intro m hm
        rw [findBooks_type m hm]
        rfl
      have hr : (findRuns cards round).filter
          (fun m => m.type == MeldType.book) = [] := by
        rw [List.filter_eq_nil_iff]
        intro m hm
        obtain ⟨s, hs⟩ := findRuns_mem m hm
        have ht := (findRunsInSuit_ok m hs).1
        simp [ht]
      rw [hb, hr, List.append_nil, findBooks_eq_booksSpec]
  refine ⟨hmain, ?_⟩
  rw [hmain, booksSpec_eq, List.pairwise_map]
  refine List.Pairwise.imp_of_mem ?_ (candidates_profile_distinct cards round)
  intro a b ha hb hR hperm
  rcases hR with hR | ⟨k, hR⟩
  · exact hR hperm.length_eq
  · exact hR (bcount_perm hperm k)

end FiveCrowns
